import Mathlib

/-!
Shallow embedding of the stock-extraction and diff engine of the
arc-scraper repository (src/app/scraper.py, src/app/scheduler.py,
src/app/db.py), together with theorems settling the specification
claims about it.

Python strings are modelled as Lean `String`; the Python string
operations used by the code (`strip`, `upper`, `lower`, `split('-')`,
substring membership `in`) are re-implemented below over `List Char`
so that every definition evaluates inside the kernel.
-/

/-! ## Python string primitives -/

/-- Python `str.strip()` of leading whitespace on a char list. -/
def strip_lead : List Char → List Char
  | [] => []
  | c :: rest => if c.isWhitespace then strip_lead rest else c :: rest

/-- Python `str.strip()`: drop leading and trailing whitespace. -/
def py_strip (s : String) : String :=
  ⟨(strip_lead ((strip_lead s.toList).reverse)).reverse⟩

/-- ASCII upper-casing of one character (the tokens handled by the code are ASCII). -/
def up_char (c : Char) : Char :=
  if 'a' ≤ c && c ≤ 'z' then Char.ofNat (c.toNat - 32) else c

/-- ASCII lower-casing of one character. -/
def low_char (c : Char) : Char :=
  if 'A' ≤ c && c ≤ 'Z' then Char.ofNat (c.toNat + 32) else c

/-- Python `str.upper()`. -/
def py_upper (s : String) : String := ⟨s.toList.map up_char⟩

/-- Python `str.lower()`. -/
def py_lower (s : String) : String := ⟨s.toList.map low_char⟩

/-- Test whether the first list begins the second list. -/
def starts_with : List Char → List Char → Bool
  | [], _ => true
  | _ :: _, [] => false
  | a :: xs, b :: ys => a == b && starts_with xs ys

/-- Test whether `needle` occurs contiguously inside the second list. -/
def sub_chars (needle : List Char) : List Char → Bool
  | [] => starts_with needle []
  | c :: rest => starts_with needle (c :: rest) || sub_chars needle rest

/-- Python `needle in hay` on strings (contiguous substring test). -/
def str_contains (hay needle : String) : Bool := sub_chars needle.toList hay.toList

/-- Helper for Python `str.split('-')`: accumulate chars until a dash. -/
def split_dash_go : List Char → List Char → List (List Char)
  | [], acc => [acc.reverse]
  | c :: rest, acc =>
      if c = '-' then acc.reverse :: split_dash_go rest [] else split_dash_go rest (c :: acc)

/-- Python `str.split('-')`. -/
def split_dash (s : String) : List String :=
  (split_dash_go s.toList []).map (fun l => ⟨l⟩)

/-! ## Variant discovery: src/app/scraper.py `get_all_colors` (lines 47-76) -/

/-- UI-chrome tokens filtered out of color labels (scraper.py line 50). -/
def filter_words : List String :=
  ["select", "choose", "size", "quantity",
   "size0", "size1", "size2", "size3", "size4", "size5", "size6"]

/-- Model of the color-selector DOM region. `items` is `none` when neither
wait selector matched within the bound (both `WebDriverWait.until` calls time
out, scraper.py lines 54-59, in which case the caught `TimeoutException` leaves
`colors = []`); otherwise it is the `aria-label` attribute of each matched
`li`, in DOM order (`get_attribute` may return null, hence `Option String`). -/
structure ColorsPage where
  items : Option (List (Option String))

/-- Loop body of `get_all_colors` (scraper.py lines 62-70): keep labels that
are non-empty after stripping, contain no filter word as a substring of their
lower-casing, and have not been seen before (exact-string dedup, first-seen
order preserved). -/
def collect_colors : List (Option String) → List String → List String
  | [], _ => []
  | it :: rest, seen =>
    match it with
    | none => collect_colors rest seen
    | some aria =>
      if !(aria == "") && !(py_strip aria == "") then
        let color_name := py_strip aria
        let color_lower := py_lower color_name
        if filter_words.any (fun w => str_contains color_lower w) then
          collect_colors rest seen
        else if seen.contains color_name then
          collect_colors rest seen
        else
          color_name :: collect_colors rest (color_name :: seen)
      else collect_colors rest seen

/-- Embedding of scraper.py `get_all_colors` (lines 47-76). -/
def get_all_colors (pg : ColorsPage) : List String :=
  match pg.items with
  | none => []
  | some its => collect_colors its []

/-! ## Variant discovery: src/app/scraper.py `get_all_sizes` (lines 79-136) -/

/-- Fixed size vocabulary (scraper.py line 82). -/
def base_sizes : List String :=
  ["XXS", "XS", "S", "M", "L", "XL", "XXL", "2X", "2XL", "3X", "3XL"]

/-- Ordered size vocabulary used for ranking (scraper.py line 83). -/
def size_order : List String :=
  ["XXS", "XS", "S", "M", "L", "XL", "XXL", "2X", "2XL", "3X", "3XL"]

/-- Fit-variation markers (scraper.py line 84). -/
def size_variations : List String := ["R", "T", "S"]

/-- Embedding of the inner `is_valid_size` (scraper.py lines 86-95): the
upper-cased stripped token is either a base size, or `BASE-VARIATION` with
exactly one dash, stripped parts, base in the vocabulary and variation in
the marker set. -/
def is_valid_size (size_str : String) : Bool :=
  let size_upper := py_strip (py_upper size_str)
  if base_sizes.contains size_upper then true
  else if size_upper.toList.contains '-' then
    match split_dash size_upper with
    | [base, variation] =>
        base_sizes.contains (py_strip base) && size_variations.contains (py_strip variation)
    | _ => false
  else false

/-- Embedding of the inner `get_size_sort_key` (scraper.py lines 97-105). -/
def get_size_sort_key (size_str : String) : Nat :=
  let size_upper := py_strip (py_upper size_str)
  let base := if size_upper.toList.contains '-'
              then (split_dash size_upper).headD size_upper else size_upper
  let base_index := if size_order.contains base
                    then size_order.findIdx (fun x => x == base) else 999
  if size_upper.toList.contains '-' then
    let variation := py_strip (((split_dash size_upper).drop 1).headD "")
    let variation_offset :=
      if variation == "R" then 0
      else if variation == "T" then 100
      else if variation == "S" then 200
      else 300
    base_index * 1000 + variation_offset
  else base_index * 1000

/-- Sort relation induced by `key=get_size_sort_key` in Python
`sorted(sizes, key=get_size_sort_key)` (scraper.py line 130). -/
def size_key_le (a b : String) : Prop := get_size_sort_key a ≤ get_size_sort_key b

instance : DecidableRel size_key_le := fun a b => Nat.decLe _ _

instance : IsTotal String size_key_le := ⟨fun a b => Nat.le_total _ _⟩

instance : IsTrans String size_key_le := ⟨fun _ _ _ => Nat.le_trans⟩

/-- Model of the size-selector DOM region. `size_list_present` is false when
the wait at scraper.py line 109 times out (caught, returning `[]`);
`data_size_values` are the `data-size-value` attributes of the primary button
query (line 111); `radio_texts` are the visible texts of the fallback
`role='radio'` query (lines 123-128). -/
structure SizePage where
  size_list_present : Bool
  data_size_values : List (Option String)
  radio_texts : List String

/-- First extraction loop of `get_all_sizes` (scraper.py lines 113-120):
attribute non-null and non-empty after strip, valid, exact-string dedup. -/
def collect_data_sizes : List (Option String) → List String → List String
  | [], _ => []
  | v :: rest, seen =>
    match v with
    | none => collect_data_sizes rest seen
    | some sv =>
      if !(sv == "") && !(py_strip sv == "") then
        let size := py_strip sv
        if is_valid_size size && !seen.contains size then
          size :: collect_data_sizes rest (size :: seen)
        else collect_data_sizes rest seen
      else collect_data_sizes rest seen

/-- Fallback extraction loop of `get_all_sizes` (scraper.py lines 122-128).
The Python loop reuses `seen_sizes`, which is necessarily empty whenever the
fallback runs (the first loop appends to `sizes` exactly when it adds to
`seen_sizes`, and the fallback runs only when `sizes` is empty). -/
def collect_radio_sizes : List String → List String → List String
  | [], _ => []
  | t :: rest, seen =>
    let text := py_strip t
    if is_valid_size text && !seen.contains text then
      text :: collect_radio_sizes rest (text :: seen)
    else collect_radio_sizes rest seen

/-- Embedding of scraper.py `get_all_sizes` (lines 79-136): extract, dedup,
validate, then stable-sort by the sort key. Python `sorted` is the stable
sort for the key preorder; `List.insertionSort` is likewise stable (an element
is inserted before the first later element it ties with, never past one), so
the two agree on every input. -/
def get_all_sizes (pg : SizePage) : List String :=
  if !pg.size_list_present then []
  else
    let sizes := collect_data_sizes pg.data_size_values []
    let sizes := if sizes.isEmpty then collect_radio_sizes pg.radio_texts [] else sizes
    sizes.insertionSort size_key_le

/-! ## Static-signal tier: src/app/scraper.py lines 139-176 -/

/-- Model of one color `li` element as seen by `check_color_stock_by_class`:
its `class` attribute (null-able; the code substitutes `''`) and the `class`
attributes of the children matched by `button, *[class*='no--stock']`.
The element itself is passed as `Option`: `none` models the case where both
the primary and the fallback XPath lookups raise, which the surrounding
`except` converts to a `None` return. -/
structure ColorElem where
  class_attr : Option String
  child_classes : List (Option String)

/-- Embedding of scraper.py `check_color_stock_by_class` (lines 139-162):
conclusive `false` when the element class or some matched child class
contains `no--stock`; otherwise inconclusive (`none`). -/
def check_color_stock_by_class (el : Option ColorElem) : Option Bool :=
  match el with
  | none => none
  | some e =>
    let element_class := e.class_attr.getD ""
    if str_contains element_class "no--stock" then some false
    else if e.child_classes.any (fun c => str_contains (c.getD "") "no--stock") then some false
    else none

/-- Model of one size button as seen by `check_size_stock_by_class`: class
attribute and disabled flag. `none` models the element lookup raising. -/
structure SizeButton where
  class_attr : Option String
  disabled : Bool

/-- Embedding of scraper.py `check_size_stock_by_class` (lines 165-176):
`no--stock` in the class gives conclusive `false`; otherwise a non-disabled
button gives conclusive `true`; otherwise inconclusive (`none`). -/
def check_size_stock_by_class (btn : Option SizeButton) : Option Bool :=
  match btn with
  | none => none
  | some b =>
    let button_class := b.class_attr.getD ""
    if str_contains button_class "no--stock" then some false
    else if !b.disabled then some true
    else none

/-- Model of one page button as seen by `check_button_for_stock`:
`aria-label` attribute (null-able), visible text, disabled flag. -/
structure PageButton where
  aria_label : Option String
  text : String
  disabled : Bool

/-- Embedding of scraper.py `check_button_for_stock` (lines 179-199): scan the
buttons in order; an enabled button whose lowered aria-label or lowered
stripped text contains `add to cart` gives `true`; one whose label or text
contains `notify me` gives `false` (even if the add-to-cart match was skipped
for being disabled); otherwise continue, ending inconclusive. -/
def check_button_for_stock : List PageButton → Option Bool
  | [] => none
  | btn :: rest =>
    let aria := py_lower (btn.aria_label.getD "")
    let text := py_strip (py_lower btn.text)
    if str_contains aria "add to cart" && !btn.disabled then some true
    else if str_contains aria "notify me" then some false
    else if str_contains text "add to cart" && !btn.disabled then some true
    else if str_contains text "notify me" then some false
    else check_button_for_stock rest

/-! ## Probing flows: src/app/scraper.py lines 242-290

Python dicts are modelled as ordered association lists (insertion order is
iteration order, as in CPython); `dict_set` is dict assignment: overwrite in
place when the key exists, else append. -/

/-- Python dict assignment `m[k] = v` on an ordered association list. -/
def dict_set {β : Type} (m : List (String × β)) (k : String) (v : β) : List (String × β) :=
  if (m.lookup k).isSome then
    m.map (fun p => if p.1 == k then (k, v) else p)
  else m ++ [(k, v)]

/-- Model of the page state relevant to `check_stock_colors_only`: the color
`li` element found for each color name (folding in the two-stage XPath lookup
of lines 142-145 — `none` when both raise), whether `click_color_option`
succeeds for each color, and the page buttons visible after clicking each
color. The probes of this flow are read-only per color in the source and are
modelled as functions of the color name alone. -/
structure ColorsFlowPage where
  color_elem : String → Option ColorElem
  click_color_ok : String → Bool
  buttons_after_color : String → List PageButton

/-- First pass of `check_stock_colors_only` (scraper.py lines 246-250):
record every color whose static class check is conclusive. -/
def colors_first_pass (pg : ColorsFlowPage) :
    List String → List (String × Bool) → List (String × Bool)
  | [], acc => acc
  | c :: rest, acc =>
    match check_color_stock_by_class (pg.color_elem c) with
    | some b => colors_first_pass pg rest (dict_set acc c b)
    | none => colors_first_pass pg rest acc

/-- Second pass of `check_stock_colors_only` (scraper.py lines 252-260): for
every color not yet recorded, click it and read the call-to-action button; a
failed click, or an inconclusive button read, records `false`. -/
def colors_second_pass (pg : ColorsFlowPage) :
    List String → List (String × Bool) → List (String × Bool)
  | [], acc => acc
  | c :: rest, acc =>
    if (acc.lookup c).isSome then colors_second_pass pg rest acc
    else if pg.click_color_ok c then
      colors_second_pass pg rest
        (dict_set acc c ((check_button_for_stock (pg.buttons_after_color c)).getD false))
    else colors_second_pass pg rest (dict_set acc c false)

/-- Embedding of scraper.py `check_stock_colors_only` (lines 242-262). -/
def check_stock_colors_only (pg : ColorsFlowPage) (colors : List String) :
    List (String × Bool) :=
  colors_second_pass pg colors (colors_first_pass pg colors [])

/-- Model of the page state relevant to `check_stock_with_sizes`, per selected
color: whether the color click succeeds, the size-selector region exposed
after selecting the color (size re-discovery is scoped to the color), the page
buttons after selecting the color only, the size button element for each size
under that color, whether clicking that size succeeds, and the page buttons
after selecting color then size. -/
structure SizedFlowPage where
  click_color_ok : String → Bool
  sizes_after_color : String → SizePage
  buttons_after_color : String → List PageButton
  size_button : String → String → Option SizeButton
  click_size_ok : String → String → Bool
  buttons_after_size : String → String → List PageButton

/-- Per-size probe of `check_stock_with_sizes` (scraper.py lines 283-288):
static size-class check first; if inconclusive, click the size and read the
call-to-action button; any remaining inconclusive result records `false`. -/
def probe_size (pg : SizedFlowPage) (c s : String) : Bool :=
  match check_size_stock_by_class (pg.size_button c s) with
  | some b => b
  | none =>
    if pg.click_size_ok c s then
      (check_button_for_stock (pg.buttons_after_size c s)).getD false
    else false

/-- Inner size loop of `check_stock_with_sizes` (scraper.py lines 281-288),
building the per-color dict. -/
def sizes_loop (pg : SizedFlowPage) (c : String) :
    List String → List (String × Bool) → List (String × Bool)
  | [], acc => acc
  | s :: rest, acc => sizes_loop pg c rest (dict_set acc s (probe_size pg c s))

/-- Color loop of `check_stock_with_sizes` (scraper.py lines 269-288): a color
whose click fails is skipped entirely (`continue`); when the re-discovered
size list for the color is empty, the color maps to the single pseudo-size
`ALL` with the call-to-action result defaulted to `false`; otherwise each
re-discovered size is probed. -/
def sized_loop (pg : SizedFlowPage) :
    List String → List (String × List (String × Bool)) →
    List (String × List (String × Bool))
  | [], acc => acc
  | c :: rest, acc =>
    if pg.click_color_ok c then
      let current_sizes := get_all_sizes (pg.sizes_after_color c)
      if current_sizes.isEmpty then
        sized_loop pg rest
          (dict_set acc c
            [("ALL", (check_button_for_stock (pg.buttons_after_color c)).getD false)])
      else
        sized_loop pg rest (dict_set acc c (sizes_loop pg c current_sizes []))
    else sized_loop pg rest acc

/-- Embedding of scraper.py `check_stock_with_sizes` (lines 265-290). The
`sizes` parameter mirrors the Python signature; the body never reads it (it
iterates the per-color re-discovered `current_sizes` instead). -/
def check_stock_with_sizes (pg : SizedFlowPage) (colors : List String)
    (sizes : List String) : List (String × List (String × Bool)) :=
  let _ := sizes
  sized_loop pg colors []

/-! ## Scan entry point: src/app/scraper.py `check_stock_status` (lines 293-334) -/

/-- Stock data returned by a scan: the `has_sizes` flag returned alongside it
by `check_stock_status` selects which shape was built, so the two are fused
into one constructor choice. -/
inductive StockData where
  | colors (m : List (String × Bool))
  | sized (m : List (String × List (String × Bool)))
deriving DecidableEq

/-- Model of one loaded product page: the color-selector region, the initial
size-selector region, the two flow models, and the `h1` product name (`none`
when the lookup raises). -/
structure ProductPage where
  colors_page : ColorsPage
  sizes_page : SizePage
  colors_flow : ColorsFlowPage
  sized_flow : SizedFlowPage
  h1 : Option String

/-- Embedding of scraper.py `check_stock_status` (lines 293-334), successful
navigation path: empty color discovery returns the error triple (`none`,
mirroring `(None, None, None)`); otherwise the initial size discovery selects
the sized or colors-only flow (`has_sizes = len(sizes) > 0`). Driver-setup
failure and page exceptions also return the error triple in the source and
are subsumed by the `none` result. -/
def check_stock_status (pg : ProductPage) : Option (StockData × Option String) :=
  let colors := get_all_colors pg.colors_page
  if colors.isEmpty then none
  else
    let sizes := get_all_sizes pg.sizes_page
    if sizes.isEmpty then
      some (.colors (check_stock_colors_only pg.colors_flow colors), pg.h1)
    else
      some (.sized (check_stock_with_sizes pg.sized_flow colors sizes), pg.h1)

/-! ## Diff engine: src/app/scheduler.py `check_all_subscriptions` (lines 188-219)

The two diff loops append to `back_in_stock` / `out_of_stock` while iterating
the current scan dict; they are written here as structural recursion on the
current map, prepending what the loop head appends first, which yields the
identical lists. A transition is a `(color, optional size)` pair. -/

/-- Ephemeral transition value `(color, optional size)` (scheduler.py lines 200, 213). -/
abbrev Transition := String × Option String

/-- Embedding of the colors-only diff loop (scheduler.py lines 208-215): for
each current color, a previous value must exist (`previous.get(color)` not
`None`); `false → true` emits into `back_in_stock`, `true → false` into
`out_of_stock`. -/
def diff_colors (previous : List (String × Bool)) :
    List (String × Bool) → List Transition × List Transition
  | [] => ([], [])
  | (c, is_in) :: rest =>
    let r := diff_colors previous rest
    match previous.lookup c with
    | none => r
    | some was =>
      if !was && is_in then ((c, none) :: r.1, r.2)
      else if was && !is_in then (r.1, (c, none) :: r.2)
      else r

/-- Inner size loop of the sized diff (scheduler.py lines 196-202) for one
current color `c`, against that color's previous size dict. -/
def diff_sizes_color (prev_sizes : List (String × Bool)) (c : String) :
    List (String × Bool) → List Transition × List Transition
  | [] => ([], [])
  | (s, is_in) :: rest =>
    let r := diff_sizes_color prev_sizes c rest
    match prev_sizes.lookup s with
    | none => r
    | some was =>
      if !was && is_in then ((c, some s) :: r.1, r.2)
      else if was && !is_in then (r.1, (c, some s) :: r.2)
      else r

/-- Embedding of the sized diff loop (scheduler.py lines 193-202): iterate the
current colors; each diffs its size dict against `previous.get(color, {})`. -/
def diff_sizes (previous : List (String × List (String × Bool))) :
    List (String × List (String × Bool)) → List Transition × List Transition
  | [] => ([], [])
  | (c, sizes_stock) :: rest =>
    let r1 := diff_sizes_color ((previous.lookup c).getD []) c sizes_stock
    let r2 := diff_sizes previous rest
    (r1.1 ++ r2.1, r1.2 ++ r2.2)

/-! ## Per-product scan cycle: src/app/scheduler.py lines 176-239 -/

/-- Stored product snapshot as read back by `load_state` (scheduler.py lines
52-57): both maps default to empty when absent from the file. Timestamps are
abstract strings (ISO strings in the source). -/
structure ProductState where
  color_stock : List (String × Bool)
  color_size_stock : List (String × List (String × Bool))
  last_checked : Option String
  has_sizes : Option Bool
  product_name : Option String
deriving DecidableEq

/-- Fresh state for a product never scanned (scheduler.py line 57). -/
def initial_state : ProductState :=
  { color_stock := [], color_size_stock := [], last_checked := none,
    has_sizes := none, product_name := none }

/-- Embedding of scheduler.py `save_state` (lines 60-82) composed with the
read-back defaults of `load_state`: the written file holds only the fields
passed, so the map of the other axis shape reads back empty. -/
def save_state (now : String) (color_stock : Option (List (String × Bool)))
    (color_size_stock : Option (List (String × List (String × Bool))))
    (has_sizes : Option Bool) (product_name : Option String) : ProductState :=
  { color_stock := color_stock.getD []
    color_size_stock := color_size_stock.getD []
    last_checked := some now
    has_sizes := has_sizes
    product_name := product_name }

/-- Subscriber record as consumed by the dispatch loop (scheduler.py lines
224-234): only the fields the loop reads or writes are modelled. -/
structure Subscriber where
  email : String
  product_name : Option String
  last_notified : Option String
deriving DecidableEq

/-- Output of one per-product cycle: the snapshot write (`none` when
`save_state` was never called), the dispatch attempts in order — each
`(email, back_in_stock, out_of_stock, send result)` — and the subscriber-file
write (`none` when `save_subscriptions` was never called). -/
structure CycleResult where
  write : Option ProductState
  sent : List (String × List Transition × List Transition × Bool)
  subs_write : Option (List Subscriber)
deriving DecidableEq

/-- Resolution of the product name (scheduler.py line 184):
`product_name or subs[0].get('product_name', 'Product')`; an absent or empty
scan name falls back to the first subscriber's stored name. -/
def resolve_name (scan_name : Option String) (subs : List Subscriber) : String :=
  let fallback := ((subs.headD ⟨"", none, none⟩).product_name).getD "Product"
  match scan_name with
  | some n => if n == "" then fallback else n
  | none => fallback

/-- Embedding of the per-product body of scheduler.py
`check_all_subscriptions` (lines 176-239) for one product, given the scan
result, the stored previous state, the product's verified + active
subscribers, and the send outcome of `send_stock_notification` per subscriber
(that function catches every exception internally and returns a boolean,
scheduler.py lines 85-142). A failed scan (`None` stock data) exits before any
write. Otherwise the branch chosen by `has_sizes` diffs, the new snapshot is
written unconditionally, and only when some transition exists is every
subscriber sent one message carrying both full lists, with `last_notified`
stamped on each regardless of the send result, followed by one
`save_subscriptions` write. -/
def check_product (now : String) (scan : Option (StockData × Option String))
    (prev : ProductState) (subs : List Subscriber) (send : Subscriber → Bool) :
    CycleResult :=
  match scan with
  | none => { write := none, sent := [], subs_write := none }
  | some (data, scan_name) =>
    let pname := resolve_name scan_name subs
    let dr : (List Transition × List Transition) × ProductState :=
      match data with
      | .colors m =>
        (diff_colors prev.color_stock m,
         save_state now (some m) none (some false) (some pname))
      | .sized m =>
        (diff_sizes prev.color_size_stock m,
         save_state now none (some m) (some true) (some pname))
    let back := dr.1.1
    let out := dr.1.2
    if back.isEmpty && out.isEmpty then
      { write := some dr.2, sent := [], subs_write := none }
    else
      { write := some dr.2
        sent := subs.map (fun sub => (sub.email, back, out, send sub))
        subs_write := some (subs.map (fun sub => { sub with last_notified := some now })) }

/-- Transition lists computed by `check_product` for given scan data and
previous state (the branch selection of scheduler.py lines 192-215). -/
def scan_diff (prev : ProductState) : StockData → List Transition × List Transition
  | .colors m => diff_colors prev.color_stock m
  | .sized m => diff_sizes prev.color_size_stock m

/-- Store of snapshots keyed by product URL; applying a cycle's write. A
`none` write (the `continue` at scheduler.py line 182) leaves the store
untouched. -/
def apply_write (store : List (String × ProductState)) (url : String) :
    Option ProductState → List (String × ProductState)
  | none => store
  | some st => dict_set store url st

/-! ## History sink -/

/-- Row of the append-only stock history (db.py `save_stock_history`,
lines 130-144). -/
structure HistRecord where
  product_url : String
  product_name : String
  color : String
  size : Option String
  came_back_in_stock_at : String
deriving DecidableEq

/-- Modelled from the spec: the dispatcher step that appends each
BECAME_IN_STOCK transition to the history sink is not under src/ — src/app/db.py
(lines 130-144) declares the sink `save_stock_history` and
`get_last_in_stock_times` consumes it, but no caller exists in src/ (the
scheduler under src/ never invokes it). Per the spec (§4.5), after dispatch
"each BECAME_IN_STOCK transition is additionally appended to the history sink
exactly once per scan cycle (not once per subscriber)": the appended rows are
one `save_stock_history` row per transition of the `became_in_stock` list,
independent of the subscriber list. -/
def dispatch_history (url pname now : String) (back : List Transition) : List HistRecord :=
  back.map (fun t =>
    { product_url := url, product_name := pname, color := t.1, size := t.2,
      came_back_in_stock_at := now })

/-- Modelled from the spec: one dispatch phase of a scan cycle (spec §4.5) —
every subscriber receives one message with both full lists, and the history
rows of `dispatch_history` are appended once, after the subscriber loop. -/
def dispatch_cycle (url pname now : String) (subs : List Subscriber)
    (send : Subscriber → Bool) (back out : List Transition) :
    List (String × List Transition × List Transition × Bool) × List HistRecord :=
  (subs.map (fun sub => (sub.email, back, out, send sub)),
   dispatch_history url pname now back)

/-! ## Association-list and dict lemmas -/

theorem lookup_cons_eq {β : Type} (k : String) (v : β) (m : List (String × β)) :
    ((k, v) :: m).lookup k = some v := by
  simp [List.lookup_cons]

theorem lookup_cons_ne {β : Type} {k c : String} (v : β) (m : List (String × β))
    (h : k ≠ c) : ((k, v) :: m).lookup c = m.lookup c := by
  simp [List.lookup_cons, beq_eq_false_iff_ne.mpr (Ne.symm h)]

/-- Membership of a key-value pair in a map with distinct keys determines the lookup. -/
theorem lookup_of_mem_nodup {β : Type} {m : List (String × β)} {c : String} {b : β}
    (hk : (m.map Prod.fst).Nodup) (hm : (c, b) ∈ m) : m.lookup c = some b := by
  induction m with
  | nil => cases hm
  | cons p rest ih =>
    obtain ⟨k, v⟩ := p
    rcases List.mem_cons.mp hm with h | h
    · cases h
      exact lookup_cons_eq c b rest
    · have hk' := List.nodup_cons.mp hk
      have hne : k ≠ c := by
        intro he
        subst he
        exact hk'.1 (List.mem_map.mpr ⟨(k, b), h, rfl⟩)
      rw [lookup_cons_ne v rest hne]
      exact ih hk'.2 h

theorem lookup_map_set_self {β : Type} {m : List (String × β)} {k : String} (v : β)
    (h : (m.lookup k).isSome) :
    (m.map (fun p => if p.1 == k then (k, v) else p)).lookup k = some v := by
  induction m with
  | nil => simp [List.lookup] at h
  | cons p rest ih =>
    obtain ⟨k1, v1⟩ := p
    by_cases hk : k1 = k
    · subst hk
      simp only [List.map_cons, beq_self_eq_true, if_pos]
      exact lookup_cons_eq k1 v _
    · have hh : (rest.lookup k).isSome := by
        rw [lookup_cons_ne v1 rest hk] at h
        exact h
      simp only [List.map_cons, beq_eq_false_iff_ne.mpr hk, Bool.false_eq_true, if_neg,
        not_false_eq_true]
      rw [lookup_cons_ne v1 _ hk]
      exact ih hh

theorem lookup_map_set_ne {β : Type} {m : List (String × β)} {k c : String} (v : β)
    (h : k ≠ c) :
    (m.map (fun p => if p.1 == k then (k, v) else p)).lookup c = m.lookup c := by
  induction m with
  | nil => simp
  | cons p rest ih =>
    obtain ⟨k1, v1⟩ := p
    by_cases hk : k1 = k
    · subst hk
      simp only [List.map_cons, beq_self_eq_true, if_pos]
      rw [lookup_cons_ne v _ h, lookup_cons_ne v1 _ h]
      exact ih
    · simp only [List.map_cons, beq_eq_false_iff_ne.mpr hk, Bool.false_eq_true, if_neg,
        not_false_eq_true]
      by_cases hc : k1 = c
      · subst hc
        rw [lookup_cons_eq, lookup_cons_eq]
      · rw [lookup_cons_ne v1 _ hc, lookup_cons_ne v1 _ hc]
        exact ih

theorem lookup_append_last_self {β : Type} {m : List (String × β)} {k : String} (v : β)
    (h : m.lookup k = none) : (m ++ [(k, v)]).lookup k = some v := by
  induction m with
  | nil => exact lookup_cons_eq k v []
  | cons p rest ih =>
    obtain ⟨k1, v1⟩ := p
    by_cases hk : k1 = k
    · subst hk
      rw [lookup_cons_eq] at h
      cases h
    · rw [lookup_cons_ne v1 rest hk] at h
      rw [List.cons_append, lookup_cons_ne v1 _ hk]
      exact ih h

theorem lookup_append_last_ne {β : Type} {m : List (String × β)} {k c : String} (v : β)
    (h : k ≠ c) : (m ++ [(k, v)]).lookup c = m.lookup c := by
  induction m with
  | nil =>
    simp only [List.nil_append]
    rw [lookup_cons_ne v [] h]
  | cons p rest ih =>
    obtain ⟨k1, v1⟩ := p
    by_cases hc : k1 = c
    · subst hc
      rw [List.cons_append, lookup_cons_eq, lookup_cons_eq]
    · rw [List.cons_append, lookup_cons_ne v1 _ hc, lookup_cons_ne v1 _ hc]
      exact ih

/-- Dict assignment makes the assigned key read back the assigned value. -/
theorem dict_set_lookup_self {β : Type} (m : List (String × β)) (k : String) (v : β) :
    (dict_set m k v).lookup k = some v := by
  unfold dict_set
  split
  · exact lookup_map_set_self v (by assumption)
  · exact lookup_append_last_self v (Option.not_isSome_iff_eq_none.mp (by assumption))

/-- Dict assignment leaves every other key unchanged. -/
theorem dict_set_lookup_ne {β : Type} (m : List (String × β)) {k c : String} (v : β)
    (h : k ≠ c) : (dict_set m k v).lookup c = m.lookup c := by
  unfold dict_set
  split
  · exact lookup_map_set_ne v h
  · exact lookup_append_last_ne v h

/-! ## Diff engine lemmas -/

theorem mem_fst_diff_colors_back {P C : List (String × Bool)} {c : String}
    {o : Option String} (h : (c, o) ∈ (diff_colors P C).1) : c ∈ C.map Prod.fst := by
  induction C with
  | nil => simp [diff_colors] at h
  | cons p rest ih =>
    obtain ⟨c0, b0⟩ := p
    simp only [diff_colors] at h
    rcases hp : P.lookup c0 with _ | was
    · rw [hp] at h
      exact List.mem_cons_of_mem _ (ih h)
    · rw [hp] at h
      rcases was <;> rcases b0 <;> simp_all <;>
        first
          | (rcases h with h | h
             · simp [h]
             · exact Or.inr (ih h))
          | exact Or.inr (ih h)

theorem mem_fst_diff_colors_out {P C : List (String × Bool)} {c : String}
    {o : Option String} (h : (c, o) ∈ (diff_colors P C).2) : c ∈ C.map Prod.fst := by
  induction C with
  | nil => simp [diff_colors] at h
  | cons p rest ih =>
    obtain ⟨c0, b0⟩ := p
    simp only [diff_colors] at h
    rcases hp : P.lookup c0 with _ | was
    · rw [hp] at h
      exact List.mem_cons_of_mem _ (ih h)
    · rw [hp] at h
      rcases was <;> rcases b0 <;> simp_all <;>
        first
          | (rcases h with h | h
             · simp [h]
             · exact Or.inr (ih h))
          | exact Or.inr (ih h)

theorem diff_colors_back_iff (P : List (String × Bool)) {C : List (String × Bool)}
    (hC : (C.map Prod.fst).Nodup) (c : String) :
    (c, (none : Option String)) ∈ (diff_colors P C).1 ↔
      P.lookup c = some false ∧ C.lookup c = some true := by
  induction C with
  | nil => simp [diff_colors, List.lookup]
  | cons p rest ih =>
    obtain ⟨c0, b0⟩ := p
    simp only [List.map_cons, List.nodup_cons] at hC
    obtain ⟨hnotin, hrest⟩ := hC
    by_cases hcc : c0 = c
    · subst hcc
      have hmem : (c0, (none : Option String)) ∉ (diff_colors P rest).1 := fun hm =>
        hnotin (mem_fst_diff_colors_back hm)
      rw [lookup_cons_eq]
      rcases hp : P.lookup c0 with _ | was
      · simp only [diff_colors, hp]
        constructor
        · intro hm
          exact absurd hm hmem
        · rintro ⟨hfalse, -⟩
          cases hfalse
      · rcases was <;> rcases b0 <;> simp_all [diff_colors, hp]
    · have hlk : ((c0, b0) :: rest).lookup c = rest.lookup c := lookup_cons_ne b0 rest hcc
      rw [hlk]
      rcases hp : P.lookup c0 with _ | was
      · simp only [diff_colors, hp]
        exact ih hrest
      · have hstep : (c, (none : Option String)) ∈ (diff_colors P ((c0, b0) :: rest)).1 ↔
            (c, (none : Option String)) ∈ (diff_colors P rest).1 := by
          simp only [diff_colors, hp]
          rcases was <;> rcases b0 <;>
            simp [List.mem_cons, Prod.ext_iff, Ne.symm hcc]
        rw [hstep]
        exact ih hrest

theorem diff_colors_out_iff (P : List (String × Bool)) {C : List (String × Bool)}
    (hC : (C.map Prod.fst).Nodup) (c : String) :
    (c, (none : Option String)) ∈ (diff_colors P C).2 ↔
      P.lookup c = some true ∧ C.lookup c = some false := by
  induction C with
  | nil => simp [diff_colors, List.lookup]
  | cons p rest ih =>
    obtain ⟨c0, b0⟩ := p
    simp only [List.map_cons, List.nodup_cons] at hC
    obtain ⟨hnotin, hrest⟩ := hC
    by_cases hcc : c0 = c
    · subst hcc
      have hmem : (c0, (none : Option String)) ∉ (diff_colors P rest).2 := fun hm =>
        hnotin (mem_fst_diff_colors_out hm)
      rw [lookup_cons_eq]
      rcases hp : P.lookup c0 with _ | was
      · simp only [diff_colors, hp]
        constructor
        · intro hm
          exact absurd hm hmem
        · rintro ⟨hfalse, -⟩
          cases hfalse
      · rcases was <;> rcases b0 <;> simp_all [diff_colors, hp]
    · have hlk : ((c0, b0) :: rest).lookup c = rest.lookup c := lookup_cons_ne b0 rest hcc
      rw [hlk]
      rcases hp : P.lookup c0 with _ | was
      · simp only [diff_colors, hp]
        exact ih hrest
      · have hstep : (c, (none : Option String)) ∈ (diff_colors P ((c0, b0) :: rest)).2 ↔
            (c, (none : Option String)) ∈ (diff_colors P rest).2 := by
          simp only [diff_colors, hp]
          rcases was <;> rcases b0 <;>
            simp [List.mem_cons, Prod.ext_iff, Ne.symm hcc]
        rw [hstep]
        exact ih hrest

theorem diff_colors_back_nodup (P : List (String × Bool)) {C : List (String × Bool)}
    (hC : (C.map Prod.fst).Nodup) : (diff_colors P C).1.Nodup := by
  induction C with
  | nil => simp [diff_colors]
  | cons p rest ih =>
    obtain ⟨c0, b0⟩ := p
    simp only [List.map_cons, List.nodup_cons] at hC
    obtain ⟨hnotin, hrest⟩ := hC
    have hnd := ih hrest
    have hni : (c0, (none : Option String)) ∉ (diff_colors P rest).1 := fun hm =>
      hnotin (mem_fst_diff_colors_back hm)
    rcases hp : P.lookup c0 with _ | was
    · simp only [diff_colors, hp]
      exact hnd
    · rcases was <;> rcases b0 <;> simp_all [diff_colors, hp]

/-- Generalized idempotence: if every current entry reads back its own value
from the previous map, no transition is emitted. -/
theorem diff_colors_eq_nil (P : List (String × Bool)) {C : List (String × Bool)}
    (h : ∀ p ∈ C, P.lookup p.1 = some p.2) : diff_colors P C = ([], []) := by
  induction C with
  | nil => simp [diff_colors]
  | cons p rest ih =>
    obtain ⟨c0, b0⟩ := p
    have h0 : P.lookup c0 = some b0 := h (c0, b0) (List.mem_cons_self _ _)
    have hr : diff_colors P rest = ([], []) := ih fun q hq => h q (List.mem_cons_of_mem _ hq)
    rcases b0 <;> simp [diff_colors, h0, hr]

theorem diff_colors_self {S : List (String × Bool)} (hS : (S.map Prod.fst).Nodup) :
    diff_colors S S = ([], []) :=
  diff_colors_eq_nil S (fun p hp => lookup_of_mem_nodup hS (by simpa using hp))

theorem shape_diff_sizes_color_back {pm : List (String × Bool)} {c : String}
    {sm : List (String × Bool)} {x : Transition}
    (h : x ∈ (diff_sizes_color pm c sm).1) :
    ∃ s, x = (c, some s) ∧ s ∈ sm.map Prod.fst := by
  induction sm with
  | nil => simp [diff_sizes_color] at h
  | cons p rest ih =>
    obtain ⟨s0, b0⟩ := p
    simp only [diff_sizes_color] at h
    rcases hp : pm.lookup s0 with _ | was
    · rw [hp] at h
      obtain ⟨s, hx, hs⟩ := ih h
      exact ⟨s, hx, List.mem_cons_of_mem _ hs⟩
    · rw [hp] at h
      cases was <;> cases b0 <;> simp at h
      · obtain ⟨s, hx, hs⟩ := ih h
        exact ⟨s, hx, List.mem_cons_of_mem _ hs⟩
      · rcases h with h | h
        · exact ⟨s0, h, List.mem_cons_self _ _⟩
        · obtain ⟨s, hx, hs⟩ := ih h
          exact ⟨s, hx, List.mem_cons_of_mem _ hs⟩
      · obtain ⟨s, hx, hs⟩ := ih h
        exact ⟨s, hx, List.mem_cons_of_mem _ hs⟩
      · obtain ⟨s, hx, hs⟩ := ih h
        exact ⟨s, hx, List.mem_cons_of_mem _ hs⟩

theorem shape_diff_sizes_color_out {pm : List (String × Bool)} {c : String}
    {sm : List (String × Bool)} {x : Transition}
    (h : x ∈ (diff_sizes_color pm c sm).2) :
    ∃ s, x = (c, some s) ∧ s ∈ sm.map Prod.fst := by
  induction sm with
  | nil => simp [diff_sizes_color] at h
  | cons p rest ih =>
    obtain ⟨s0, b0⟩ := p
    simp only [diff_sizes_color] at h
    rcases hp : pm.lookup s0 with _ | was
    · rw [hp] at h
      obtain ⟨s, hx, hs⟩ := ih h
      exact ⟨s, hx, List.mem_cons_of_mem _ hs⟩
    · rw [hp] at h
      cases was <;> cases b0 <;> simp at h
      · obtain ⟨s, hx, hs⟩ := ih h
        exact ⟨s, hx, List.mem_cons_of_mem _ hs⟩
      · obtain ⟨s, hx, hs⟩ := ih h
        exact ⟨s, hx, List.mem_cons_of_mem _ hs⟩
      · rcases h with h | h
        · exact ⟨s0, h, List.mem_cons_self _ _⟩
        · obtain ⟨s, hx, hs⟩ := ih h
          exact ⟨s, hx, List.mem_cons_of_mem _ hs⟩
      · obtain ⟨s, hx, hs⟩ := ih h
        exact ⟨s, hx, List.mem_cons_of_mem _ hs⟩

theorem diff_sizes_color_back_iff (pm : List (String × Bool)) (c : String)
    {sm : List (String × Bool)} (hsm : (sm.map Prod.fst).Nodup) (c' s : String) :
    (c', some s) ∈ (diff_sizes_color pm c sm).1 ↔
      c' = c ∧ pm.lookup s = some false ∧ sm.lookup s = some true := by
  induction sm with
  | nil => simp [diff_sizes_color, List.lookup]
  | cons p rest ih =>
    obtain ⟨s0, b0⟩ := p
    simp only [List.map_cons, List.nodup_cons] at hsm
    obtain ⟨hnotin, hrest⟩ := hsm
    by_cases hss : s0 = s
    · subst hss
      have hmem : ∀ c'', (c'', some s0) ∉ (diff_sizes_color pm c rest).1 := by
        intro c'' hm
        obtain ⟨s', hx, hs'⟩ := shape_diff_sizes_color_back hm
        cases hx
        exact hnotin hs'
      rw [lookup_cons_eq]
      rcases hp : pm.lookup s0 with _ | was
      · simp only [diff_sizes_color, hp]
        constructor
        · intro hm
          exact absurd hm (hmem c')
        · rintro ⟨-, hfalse, -⟩
          cases hfalse
      · rcases was <;> rcases b0 <;>
          simp_all [diff_sizes_color, hp, List.mem_cons, Prod.ext_iff]
    · have hlk : ((s0, b0) :: rest).lookup s = rest.lookup s := lookup_cons_ne b0 rest hss
      rw [hlk]
      rcases hp : pm.lookup s0 with _ | was
      · simp only [diff_sizes_color, hp]
        exact ih hrest
      · have hstep : (c', some s) ∈ (diff_sizes_color pm c ((s0, b0) :: rest)).1 ↔
            (c', some s) ∈ (diff_sizes_color pm c rest).1 := by
          simp only [diff_sizes_color, hp]
          rcases was <;> rcases b0 <;>
            simp [List.mem_cons, Prod.ext_iff, Ne.symm hss]
        rw [hstep]
        exact ih hrest

theorem diff_sizes_color_out_iff (pm : List (String × Bool)) (c : String)
    {sm : List (String × Bool)} (hsm : (sm.map Prod.fst).Nodup) (c' s : String) :
    (c', some s) ∈ (diff_sizes_color pm c sm).2 ↔
      c' = c ∧ pm.lookup s = some true ∧ sm.lookup s = some false := by
  induction sm with
  | nil => simp [diff_sizes_color, List.lookup]
  | cons p rest ih =>
    obtain ⟨s0, b0⟩ := p
    simp only [List.map_cons, List.nodup_cons] at hsm
    obtain ⟨hnotin, hrest⟩ := hsm
    by_cases hss : s0 = s
    · subst hss
      have hmem : ∀ c'', (c'', some s0) ∉ (diff_sizes_color pm c rest).2 := by
        intro c'' hm
        obtain ⟨s', hx, hs'⟩ := shape_diff_sizes_color_out hm
        cases hx
        exact hnotin hs'
      rw [lookup_cons_eq]
      rcases hp : pm.lookup s0 with _ | was
      · simp only [diff_sizes_color, hp]
        constructor
        · intro hm
          exact absurd hm (hmem c')
        · rintro ⟨-, hfalse, -⟩
          cases hfalse
      · rcases was <;> rcases b0 <;>
          simp_all [diff_sizes_color, hp, List.mem_cons, Prod.ext_iff]
    · have hlk : ((s0, b0) :: rest).lookup s = rest.lookup s := lookup_cons_ne b0 rest hss
      rw [hlk]
      rcases hp : pm.lookup s0 with _ | was
      · simp only [diff_sizes_color, hp]
        exact ih hrest
      · have hstep : (c', some s) ∈ (diff_sizes_color pm c ((s0, b0) :: rest)).2 ↔
            (c', some s) ∈ (diff_sizes_color pm c rest).2 := by
          simp only [diff_sizes_color, hp]
          rcases was <;> rcases b0 <;>
            simp [List.mem_cons, Prod.ext_iff, Ne.symm hss]
        rw [hstep]
        exact ih hrest

theorem mem_fst_diff_sizes_back {P C : List (String × List (String × Bool))}
    {x : Transition} (h : x ∈ (diff_sizes P C).1) : x.1 ∈ C.map Prod.fst := by
  induction C with
  | nil => simp [diff_sizes] at h
  | cons p rest ih =>
    obtain ⟨c0, sm0⟩ := p
    simp only [diff_sizes] at h
    rcases List.mem_append.mp h with h | h
    · obtain ⟨s, hx, -⟩ := shape_diff_sizes_color_back h
      subst hx
      exact List.mem_cons_self _ _
    · exact List.mem_cons_of_mem _ (ih h)

theorem mem_fst_diff_sizes_out {P C : List (String × List (String × Bool))}
    {x : Transition} (h : x ∈ (diff_sizes P C).2) : x.1 ∈ C.map Prod.fst := by
  induction C with
  | nil => simp [diff_sizes] at h
  | cons p rest ih =>
    obtain ⟨c0, sm0⟩ := p
    simp only [diff_sizes] at h
    rcases List.mem_append.mp h with h | h
    · obtain ⟨s, hx, -⟩ := shape_diff_sizes_color_out h
      subst hx
      exact List.mem_cons_self _ _
    · exact List.mem_cons_of_mem _ (ih h)

theorem diff_sizes_back_iff (P : List (String × List (String × Bool)))
    {C : List (String × List (String × Bool))} (hC : (C.map Prod.fst).Nodup)
    (hCi : ∀ p ∈ C, (p.2.map Prod.fst).Nodup) (c s : String) :
    (c, some s) ∈ (diff_sizes P C).1 ↔
      ∃ cm, C.lookup c = some cm ∧
        ((P.lookup c).getD []).lookup s = some false ∧ cm.lookup s = some true := by
  induction C with
  | nil => simp [diff_sizes, List.lookup]
  | cons p rest ih =>
    obtain ⟨c0, sm0⟩ := p
    simp only [List.map_cons, List.nodup_cons] at hC
    obtain ⟨hnotin, hrest⟩ := hC
    have hin : (sm0.map Prod.fst).Nodup := hCi (c0, sm0) (List.mem_cons_self _ _)
    have hit : ∀ p ∈ rest, (p.2.map Prod.fst).Nodup := fun p hp =>
      hCi p (List.mem_cons_of_mem _ hp)
    have hsplit : (c, some s) ∈ (diff_sizes P ((c0, sm0) :: rest)).1 ↔
        (c, some s) ∈ (diff_sizes_color ((P.lookup c0).getD []) c0 sm0).1 ∨
        (c, some s) ∈ (diff_sizes P rest).1 := by
      simp only [diff_sizes]
      exact List.mem_append
    rw [hsplit]
    by_cases hcc : c0 = c
    · subst hcc
      have hno : (c0, some s) ∉ (diff_sizes P rest).1 := fun hm =>
        hnotin (mem_fst_diff_sizes_back hm)
      rw [lookup_cons_eq]
      rw [diff_sizes_color_back_iff _ _ hin]
      constructor
      · rintro (⟨-, hpm, hsm⟩ | hm)
        · exact ⟨sm0, rfl, hpm, hsm⟩
        · exact absurd hm hno
      · rintro ⟨cm, hcm, hpm, hsm⟩
        injection hcm with hcm
        subst hcm
        exact Or.inl ⟨rfl, hpm, hsm⟩
    · have hno : (c, some s) ∉ (diff_sizes_color ((P.lookup c0).getD []) c0 sm0).1 := by
        intro hm
        obtain ⟨hcc2, -, -⟩ := (diff_sizes_color_back_iff _ _ hin c s).mp hm
        exact hcc hcc2.symm
      rw [lookup_cons_ne sm0 rest hcc]
      constructor
      · rintro (hm | hm)
        · exact absurd hm hno
        · exact (ih hrest hit).mp hm
      · intro hr
        exact Or.inr ((ih hrest hit).mpr hr)

theorem diff_sizes_out_iff (P : List (String × List (String × Bool)))
    {C : List (String × List (String × Bool))} (hC : (C.map Prod.fst).Nodup)
    (hCi : ∀ p ∈ C, (p.2.map Prod.fst).Nodup) (c s : String) :
    (c, some s) ∈ (diff_sizes P C).2 ↔
      ∃ cm, C.lookup c = some cm ∧
        ((P.lookup c).getD []).lookup s = some true ∧ cm.lookup s = some false := by
  induction C with
  | nil => simp [diff_sizes, List.lookup]
  | cons p rest ih =>
    obtain ⟨c0, sm0⟩ := p
    simp only [List.map_cons, List.nodup_cons] at hC
    obtain ⟨hnotin, hrest⟩ := hC
    have hin : (sm0.map Prod.fst).Nodup := hCi (c0, sm0) (List.mem_cons_self _ _)
    have hit : ∀ p ∈ rest, (p.2.map Prod.fst).Nodup := fun p hp =>
      hCi p (List.mem_cons_of_mem _ hp)
    have hsplit : (c, some s) ∈ (diff_sizes P ((c0, sm0) :: rest)).2 ↔
        (c, some s) ∈ (diff_sizes_color ((P.lookup c0).getD []) c0 sm0).2 ∨
        (c, some s) ∈ (diff_sizes P rest).2 := by
      simp only [diff_sizes]
      exact List.mem_append
    rw [hsplit]
    by_cases hcc : c0 = c
    · subst hcc
      have hno : (c0, some s) ∉ (diff_sizes P rest).2 := fun hm =>
        hnotin (mem_fst_diff_sizes_out hm)
      rw [lookup_cons_eq]
      rw [diff_sizes_color_out_iff _ _ hin]
      constructor
      · rintro (⟨-, hpm, hsm⟩ | hm)
        · exact ⟨sm0, rfl, hpm, hsm⟩
        · exact absurd hm hno
      · rintro ⟨cm, hcm, hpm, hsm⟩
        injection hcm with hcm
        subst hcm
        exact Or.inl ⟨rfl, hpm, hsm⟩
    · have hno : (c, some s) ∉ (diff_sizes_color ((P.lookup c0).getD []) c0 sm0).2 := by
        intro hm
        obtain ⟨hcc2, -, -⟩ := (diff_sizes_color_out_iff _ _ hin c s).mp hm
        exact hcc hcc2.symm
      rw [lookup_cons_ne sm0 rest hcc]
      constructor
      · rintro (hm | hm)
        · exact absurd hm hno
        · exact (ih hrest hit).mp hm
      · intro hr
        exact Or.inr ((ih hrest hit).mpr hr)

theorem diff_sizes_color_eq_nil (pm : List (String × Bool)) (c : String)
    {sm : List (String × Bool)} (h : ∀ p ∈ sm, pm.lookup p.1 = some p.2) :
    diff_sizes_color pm c sm = ([], []) := by
  induction sm with
  | nil => simp [diff_sizes_color]
  | cons p rest ih =>
    obtain ⟨s0, b0⟩ := p
    have h0 : pm.lookup s0 = some b0 := h (s0, b0) (List.mem_cons_self _ _)
    have hr : diff_sizes_color pm c rest = ([], []) :=
      ih fun q hq => h q (List.mem_cons_of_mem _ hq)
    rcases b0 <;> simp [diff_sizes_color, h0, hr]

theorem diff_sizes_eq_nil (P : List (String × List (String × Bool)))
    {C : List (String × List (String × Bool))}
    (h : ∀ p ∈ C, ∀ q ∈ p.2, ((P.lookup p.1).getD []).lookup q.1 = some q.2) :
    diff_sizes P C = ([], []) := by
  induction C with
  | nil => simp [diff_sizes]
  | cons p rest ih =>
    obtain ⟨c0, sm0⟩ := p
    have h1 : diff_sizes_color ((P.lookup c0).getD []) c0 sm0 = ([], []) :=
      diff_sizes_color_eq_nil _ _ fun q hq => h (c0, sm0) (List.mem_cons_self _ _) q hq
    have h2 : diff_sizes P rest = ([], []) :=
      ih fun p hp => h p (List.mem_cons_of_mem _ hp)
    simp [diff_sizes, h1, h2]

theorem diff_sizes_self {M : List (String × List (String × Bool))}
    (hM : (M.map Prod.fst).Nodup) (hMi : ∀ p ∈ M, (p.2.map Prod.fst).Nodup) :
    diff_sizes M M = ([], []) := by
  apply diff_sizes_eq_nil
  intro p hp q hq
  have h1 : M.lookup p.1 = some p.2 := lookup_of_mem_nodup hM (by
    rcases p with ⟨a, b⟩
    simpa using hp)
  rw [h1]
  exact lookup_of_mem_nodup (hMi p hp) (by rcases q with ⟨a, b⟩; simpa using hq)

/-! ## Probing-flow lemmas -/

/-- Final availability value of one color in the colors-only flow: the
conclusive static result if any, else the interactive probe defaulted to
`false` on click failure or inconclusive button read. -/
def color_status (pg : ColorsFlowPage) (c : String) : Bool :=
  match check_color_stock_by_class (pg.color_elem c) with
  | some b => b
  | none =>
    if pg.click_color_ok c then
      (check_button_for_stock (pg.buttons_after_color c)).getD false
    else false

theorem colors_first_pass_lookup_not_mem (pg : ColorsFlowPage) {l : List String}
    {c : String} (h : c ∉ l) (acc : List (String × Bool)) :
    (colors_first_pass pg l acc).lookup c = acc.lookup c := by
  induction l generalizing acc with
  | nil => rfl
  | cons c1 rest ih =>
    have hne : c1 ≠ c := fun he => h (he ▸ List.mem_cons_self _ _)
    have hr : c ∉ rest := fun hm => h (List.mem_cons_of_mem _ hm)
    rcases hs : check_color_stock_by_class (pg.color_elem c1) with _ | b
    · simp only [colors_first_pass, hs]
      exact ih hr _
    · simp only [colors_first_pass, hs]
      rw [ih hr _, dict_set_lookup_ne _ _ hne]

theorem colors_first_pass_lookup_some (pg : ColorsFlowPage) {l : List String}
    (hnd : l.Nodup) {c : String} {b : Bool} (hc : c ∈ l)
    (hs : check_color_stock_by_class (pg.color_elem c) = some b)
    (acc : List (String × Bool)) :
    (colors_first_pass pg l acc).lookup c = some b := by
  induction l generalizing acc with
  | nil => cases hc
  | cons c1 rest ih =>
    obtain ⟨hni, hndr⟩ := List.nodup_cons.mp hnd
    rcases List.mem_cons.mp hc with he | hm
    · subst he
      simp only [colors_first_pass, hs]
      rw [colors_first_pass_lookup_not_mem pg hni _, dict_set_lookup_self]
    · have hne : c1 ≠ c := fun he => hni (he ▸ hm)
      rcases hs1 : check_color_stock_by_class (pg.color_elem c1) with _ | b1
      · simp only [colors_first_pass, hs1]
        exact ih hndr hm _
      · simp only [colors_first_pass, hs1]
        exact ih hndr hm _

theorem colors_first_pass_lookup_none (pg : ColorsFlowPage) {l : List String}
    {c : String} (hs : check_color_stock_by_class (pg.color_elem c) = none)
    (acc : List (String × Bool)) :
    (colors_first_pass pg l acc).lookup c = acc.lookup c := by
  induction l generalizing acc with
  | nil => rfl
  | cons c1 rest ih =>
    rcases hs1 : check_color_stock_by_class (pg.color_elem c1) with _ | b1
    · simp only [colors_first_pass, hs1]
      exact ih _
    · have hne : c1 ≠ c := by
        intro he
        rw [he, hs] at hs1
        cases hs1
      simp only [colors_first_pass, hs1]
      rw [ih _, dict_set_lookup_ne _ _ hne]

theorem colors_second_pass_preserves (pg : ColorsFlowPage) {l : List String}
    {c : String} {v : Bool} {acc : List (String × Bool)} (h : acc.lookup c = some v) :
    (colors_second_pass pg l acc).lookup c = some v := by
  induction l generalizing acc with
  | nil => exact h
  | cons c1 rest ih =>
    by_cases h1 : (acc.lookup c1).isSome
    · simp only [colors_second_pass, h1, if_pos]
      exact ih h
    · have hne : c1 ≠ c := by
        intro he
        rw [he, h] at h1
        exact h1 rfl
      simp only [colors_second_pass, h1, Bool.false_eq_true, if_neg, not_false_eq_true]
      by_cases hck : pg.click_color_ok c1 <;> simp only [hck, if_pos, if_neg, Bool.false_eq_true,
        not_false_eq_true] <;> exact ih (by rw [dict_set_lookup_ne _ _ hne]; exact h)

theorem colors_second_pass_fills (pg : ColorsFlowPage) {l : List String}
    (hnd : l.Nodup) {c : String} (hc : c ∈ l) (acc : List (String × Bool))
    (h : acc.lookup c = none) :
    (colors_second_pass pg l acc).lookup c =
      some (if pg.click_color_ok c then
              (check_button_for_stock (pg.buttons_after_color c)).getD false
            else false) := by
  induction l generalizing acc with
  | nil => cases hc
  | cons c1 rest ih =>
    obtain ⟨hni, hndr⟩ := List.nodup_cons.mp hnd
    rcases List.mem_cons.mp hc with he | hm
    · subst he
      have h1 : ¬(acc.lookup c).isSome := by
        rw [h]
        simp
      simp only [colors_second_pass, h1, Bool.false_eq_true, if_neg, not_false_eq_true]
      by_cases hck : pg.click_color_ok c
      · simp only [hck, if_pos]
        exact colors_second_pass_preserves pg (dict_set_lookup_self acc c _)
      · simp only [hck, if_neg, Bool.false_eq_true, not_false_eq_true]
        exact colors_second_pass_preserves pg (dict_set_lookup_self acc c _)
    · have hne : c1 ≠ c := fun he => hni (he ▸ hm)
      by_cases h1 : (acc.lookup c1).isSome
      · simp only [colors_second_pass, h1, if_pos]
        exact ih hndr hm _ h
      · simp only [colors_second_pass, h1, Bool.false_eq_true, if_neg, not_false_eq_true]
        by_cases hck : pg.click_color_ok c1 <;>
          simp only [hck, if_pos, if_neg, Bool.false_eq_true, not_false_eq_true] <;>
          exact ih hndr hm _ (by rw [dict_set_lookup_ne _ _ hne]; exact h)

/-- Every discovered color reads back its `color_status` from the colors-only
flow result (the two passes together resolve every color exactly once). -/
theorem check_stock_colors_only_lookup (pg : ColorsFlowPage) {colors : List String}
    (hnd : colors.Nodup) {c : String} (hc : c ∈ colors) :
    (check_stock_colors_only pg colors).lookup c = some (color_status pg c) := by
  unfold check_stock_colors_only color_status
  rcases hs : check_color_stock_by_class (pg.color_elem c) with _ | b
  · have h1 : (colors_first_pass pg colors []).lookup c = none := by
      rw [colors_first_pass_lookup_none pg hs []]
      rfl
    exact colors_second_pass_fills pg hnd hc _ h1
  · exact colors_second_pass_preserves pg (colors_first_pass_lookup_some pg hnd hc hs [])

/-- Per-color entry built by the sized flow once the color click succeeded:
the `ALL` pseudo-size on empty re-discovery, else one probed entry per
re-discovered size. -/
def sized_inner (pg : SizedFlowPage) (c : String) : List (String × Bool) :=
  let current_sizes := get_all_sizes (pg.sizes_after_color c)
  if current_sizes.isEmpty then
    [("ALL", (check_button_for_stock (pg.buttons_after_color c)).getD false)]
  else sizes_loop pg c current_sizes []

theorem sizes_loop_lookup_not_mem (pg : SizedFlowPage) (c : String) {l : List String}
    {s : String} (h : s ∉ l) (acc : List (String × Bool)) :
    (sizes_loop pg c l acc).lookup s = acc.lookup s := by
  induction l generalizing acc with
  | nil => rfl
  | cons s1 rest ih =>
    have hne : s1 ≠ s := fun he => h (he ▸ List.mem_cons_self _ _)
    have hr : s ∉ rest := fun hm => h (List.mem_cons_of_mem _ hm)
    simp only [sizes_loop]
    rw [ih hr _, dict_set_lookup_ne _ _ hne]

theorem sizes_loop_lookup_mem (pg : SizedFlowPage) (c : String) {l : List String}
    (hnd : l.Nodup) {s : String} (hs : s ∈ l) (acc : List (String × Bool)) :
    (sizes_loop pg c l acc).lookup s = some (probe_size pg c s) := by
  induction l generalizing acc with
  | nil => cases hs
  | cons s1 rest ih =>
    obtain ⟨hni, hndr⟩ := List.nodup_cons.mp hnd
    rcases List.mem_cons.mp hs with he | hm
    · subst he
      simp only [sizes_loop]
      rw [sizes_loop_lookup_not_mem pg c hni _, dict_set_lookup_self]
    · simp only [sizes_loop]
      exact ih hndr hm _

theorem sized_loop_lookup_not_mem (pg : SizedFlowPage) {l : List String}
    {c : String} (h : c ∉ l) (acc : List (String × List (String × Bool))) :
    (sized_loop pg l acc).lookup c = acc.lookup c := by
  induction l generalizing acc with
  | nil => rfl
  | cons c1 rest ih =>
    have hne : c1 ≠ c := fun he => h (he ▸ List.mem_cons_self _ _)
    have hr : c ∉ rest := fun hm => h (List.mem_cons_of_mem _ hm)
    by_cases hck : pg.click_color_ok c1
    · by_cases hemp : (get_all_sizes (pg.sizes_after_color c1)).isEmpty <;>
        simp only [sized_loop, hck, hemp, if_pos, if_neg, Bool.false_eq_true,
          not_false_eq_true] <;>
        rw [ih hr _, dict_set_lookup_ne _ _ hne]
    · simp only [sized_loop, hck, Bool.false_eq_true, if_neg, not_false_eq_true]
      exact ih hr _

theorem sized_loop_lookup_mem (pg : SizedFlowPage) {l : List String}
    (hnd : l.Nodup) {c : String} (hc : c ∈ l) (acc : List (String × List (String × Bool))) :
    (sized_loop pg l acc).lookup c =
      if pg.click_color_ok c then some (sized_inner pg c) else acc.lookup c := by
  induction l generalizing acc with
  | nil => cases hc
  | cons c1 rest ih =>
    obtain ⟨hni, hndr⟩ := List.nodup_cons.mp hnd
    rcases List.mem_cons.mp hc with he | hm
    · subst he
      by_cases hck : pg.click_color_ok c
      · by_cases hemp : (get_all_sizes (pg.sizes_after_color c)).isEmpty <;>
          simp only [sized_loop, hck, hemp, if_pos, if_neg, Bool.false_eq_true,
            not_false_eq_true, sized_inner] <;>
          rw [sized_loop_lookup_not_mem pg hni _, dict_set_lookup_self]
      · simp only [sized_loop, hck, Bool.false_eq_true, if_neg, not_false_eq_true]
        exact sized_loop_lookup_not_mem pg hni _
    · have hne : c1 ≠ c := fun he => hni (he ▸ hm)
      by_cases hck : pg.click_color_ok c1
      · by_cases hemp : (get_all_sizes (pg.sizes_after_color c1)).isEmpty <;>
          simp only [sized_loop, hck, hemp, if_pos, if_neg, Bool.false_eq_true,
            not_false_eq_true] <;>
          rw [ih hndr hm _] <;>
          by_cases hck2 : pg.click_color_ok c <;>
          simp only [hck2, if_pos, if_neg, Bool.false_eq_true, not_false_eq_true] <;>
          rw [dict_set_lookup_ne _ _ hne]
      · simp only [sized_loop, hck, Bool.false_eq_true, if_neg, not_false_eq_true]
        exact ih hndr hm _

/-- Every discovered color's entry in the sized flow: present with its probed
size dict when the color click succeeded, absent when it failed. -/
theorem check_stock_with_sizes_lookup (pg : SizedFlowPage) {colors : List String}
    (hnd : colors.Nodup) {c : String} (hc : c ∈ colors) (sizes : List String) :
    (check_stock_with_sizes pg colors sizes).lookup c =
      if pg.click_color_ok c then some (sized_inner pg c) else none := by
  unfold check_stock_with_sizes
  rw [sized_loop_lookup_mem pg hnd hc []]
  rfl

/-! ## Size-discovery lemmas -/

theorem collect_data_sizes_spec (l : List (Option String)) (seen : List String) :
    (collect_data_sizes l seen).Nodup ∧
      ∀ s ∈ collect_data_sizes l seen, is_valid_size s = true ∧ seen.contains s = false := by
  induction l generalizing seen with
  | nil => exact ⟨List.nodup_nil, fun s hs => absurd hs (List.not_mem_nil s)⟩
  | cons v rest ih =>
    rcases v with _ | sv
    · simpa only [collect_data_sizes] using ih seen
    · simp only [collect_data_sizes]
      by_cases h1 : (!(sv == "") && !(py_strip sv == "")) = true
      · simp only [h1, if_pos]
        by_cases h2 : (is_valid_size (py_strip sv) && !seen.contains (py_strip sv)) = true
        · simp only [h2, if_pos]
          have h2' : is_valid_size (py_strip sv) = true ∧
              seen.contains (py_strip sv) = false := by
            simpa only [Bool.and_eq_true, Bool.not_eq_true'] using h2
          obtain ⟨hnd, hmem⟩ := ih (py_strip sv :: seen)
          refine ⟨List.nodup_cons.mpr ⟨fun hm => ?_, hnd⟩, fun s hs => ?_⟩
          · have := (hmem _ hm).2
            simp [List.contains_cons] at this
          · rcases List.mem_cons.mp hs with he | hm
            · subst he
              exact ⟨h2'.1, h2'.2⟩
            · obtain ⟨hv, hns⟩ := hmem s hm
              refine ⟨hv, ?_⟩
              simp only [List.contains_cons, Bool.or_eq_false_iff] at hns
              exact hns.2
        · simp only [h2, Bool.false_eq_true, if_neg, not_false_eq_true]
          exact ih seen
      · simp only [h1, Bool.false_eq_true, if_neg, not_false_eq_true]
        exact ih seen

theorem collect_radio_sizes_spec (l : List String) (seen : List String) :
    (collect_radio_sizes l seen).Nodup ∧
      ∀ s ∈ collect_radio_sizes l seen, is_valid_size s = true ∧ seen.contains s = false := by
  induction l generalizing seen with
  | nil => exact ⟨List.nodup_nil, fun s hs => absurd hs (List.not_mem_nil s)⟩
  | cons t rest ih =>
    simp only [collect_radio_sizes]
    by_cases h2 : (is_valid_size (py_strip t) && !seen.contains (py_strip t)) = true
    · simp only [h2, if_pos]
      have h2' : is_valid_size (py_strip t) = true ∧
          seen.contains (py_strip t) = false := by
        simpa only [Bool.and_eq_true, Bool.not_eq_true'] using h2
      obtain ⟨hnd, hmem⟩ := ih (py_strip t :: seen)
      refine ⟨List.nodup_cons.mpr ⟨fun hm => ?_, hnd⟩, fun s hs => ?_⟩
      · have := (hmem _ hm).2
        simp [List.contains_cons] at this
      · rcases List.mem_cons.mp hs with he | hm
        · subst he
          exact ⟨h2'.1, h2'.2⟩
        · obtain ⟨hv, hns⟩ := hmem s hm
          refine ⟨hv, ?_⟩
          simp only [List.contains_cons, Bool.or_eq_false_iff] at hns
          exact hns.2
    · simp only [h2, Bool.false_eq_true, if_neg, not_false_eq_true]
      exact ih seen

theorem get_all_sizes_valid (pg : SizePage) :
    ∀ s ∈ get_all_sizes pg, is_valid_size s = true := by
  intro s hs
  unfold get_all_sizes at hs
  by_cases hp : pg.size_list_present
  · simp only [hp, Bool.not_true, Bool.false_eq_true, if_neg, not_false_eq_true] at hs
    rw [(List.perm_insertionSort size_key_le _).mem_iff] at hs
    by_cases he : (collect_data_sizes pg.data_size_values []).isEmpty
    · simp only [he, if_pos] at hs
      exact ((collect_radio_sizes_spec pg.radio_texts []).2 s hs).1
    · simp only [he, Bool.false_eq_true, if_neg, not_false_eq_true] at hs
      exact ((collect_data_sizes_spec pg.data_size_values []).2 s hs).1
  · simp only [hp] at hs
    simp at hs

theorem get_all_sizes_nodup (pg : SizePage) : (get_all_sizes pg).Nodup := by
  unfold get_all_sizes
  by_cases hp : pg.size_list_present
  · simp only [hp, Bool.not_true, Bool.false_eq_true, if_neg, not_false_eq_true]
    apply ((List.perm_insertionSort size_key_le _).symm).nodup
    by_cases he : (collect_data_sizes pg.data_size_values []).isEmpty
    · simp only [he, if_pos]
      exact (collect_radio_sizes_spec pg.radio_texts []).1
    · simp only [he, Bool.false_eq_true, if_neg, not_false_eq_true]
      exact (collect_data_sizes_spec pg.data_size_values []).1
  · simp [hp]

theorem get_all_sizes_sorted (pg : SizePage) :
    (get_all_sizes pg).Pairwise size_key_le := by
  unfold get_all_sizes
  by_cases hp : pg.size_list_present
  · simp only [hp, Bool.not_true, Bool.false_eq_true, if_neg, not_false_eq_true]
    exact List.sorted_insertionSort size_key_le _
  · simp [hp]

/-! ## Per-product cycle lemmas -/

/-- Snapshot written by `check_product` for given scan data (the two
`save_state` calls at scheduler.py lines 205 and 218). -/
def save_of (now pname : String) : StockData → ProductState
  | .colors m => save_state now (some m) none (some false) (some pname)
  | .sized m => save_state now none (some m) (some true) (some pname)

theorem check_product_some (now : String) (data : StockData) (name : Option String)
    (prev : ProductState) (subs : List Subscriber) (send : Subscriber → Bool) :
    check_product now (some (data, name)) prev subs send =
      if (scan_diff prev data).1.isEmpty && (scan_diff prev data).2.isEmpty then
        { write := some (save_of now (resolve_name name subs) data), sent := [],
          subs_write := none }
      else
        { write := some (save_of now (resolve_name name subs) data)
          sent := subs.map (fun sub =>
            (sub.email, (scan_diff prev data).1, (scan_diff prev data).2, send sub))
          subs_write := some (subs.map (fun sub => { sub with last_notified := some now })) } := by
  rcases data <;> rfl

theorem check_product_write (now : String) (data : StockData) (name : Option String)
    (prev : ProductState) (subs : List Subscriber) (send : Subscriber → Bool) :
    (check_product now (some (data, name)) prev subs send).write =
      some (save_of now (resolve_name name subs) data) := by
  rw [check_product_some]
  split <;> rfl

/-! ## Claim theorems -/

/-- C1. Diff algorithm: for a fixed product, with `P` the previous snapshot's
map and `C` the current scan's map (shown for both axis shapes, the flattened
variant keys being colors resp. (color, size) pairs): a variant present in
both `P` and `C` emits BECAME_IN_STOCK iff it went `false → true` and
BECAME_OUT_OF_STOCK iff it went `true → false`, and nothing otherwise; a
variant absent from `P` emits no transition; and the persisted snapshot is
exactly `C`, so variants only in `C` are recorded and variants only in `P`
are dropped. -/
theorem c1_diff_transitions_and_snapshot
    (prev : ProductState) (C : List (String × Bool))
    (Cs : List (String × List (String × Bool)))
    (now : String) (name : Option String) (subs : List Subscriber)
    (send : Subscriber → Bool)
    (hC : (C.map Prod.fst).Nodup) (hCs : (Cs.map Prod.fst).Nodup)
    (hCsi : ∀ p ∈ Cs, (p.2.map Prod.fst).Nodup) :
    (∀ c, ((c, (none : Option String)) ∈ (diff_colors prev.color_stock C).1 ↔
            prev.color_stock.lookup c = some false ∧ C.lookup c = some true)
        ∧ ((c, (none : Option String)) ∈ (diff_colors prev.color_stock C).2 ↔
            prev.color_stock.lookup c = some true ∧ C.lookup c = some false))
    ∧ (∀ c, prev.color_stock.lookup c = none →
          (c, (none : Option String)) ∉ (diff_colors prev.color_stock C).1 ∧
          (c, (none : Option String)) ∉ (diff_colors prev.color_stock C).2)
    ∧ (∃ st, (check_product now (some (.colors C, name)) prev subs send).write = some st
          ∧ st.color_stock = C)
    ∧ (∀ c s, ((c, some s) ∈ (diff_sizes prev.color_size_stock Cs).1 ↔
            ∃ cm, Cs.lookup c = some cm ∧
              ((prev.color_size_stock.lookup c).getD []).lookup s = some false ∧
              cm.lookup s = some true)
        ∧ ((c, some s) ∈ (diff_sizes prev.color_size_stock Cs).2 ↔
            ∃ cm, Cs.lookup c = some cm ∧
              ((prev.color_size_stock.lookup c).getD []).lookup s = some true ∧
              cm.lookup s = some false))
    ∧ (∃ st, (check_product now (some (.sized Cs, name)) prev subs send).write = some st
          ∧ st.color_size_stock = Cs) := by
  refine ⟨fun c => ⟨diff_colors_back_iff _ hC c, diff_colors_out_iff _ hC c⟩,
    fun c hn => ⟨fun hm => ?_, fun hm => ?_⟩,
    ⟨save_of now (resolve_name name subs) (.colors C), check_product_write now _ name prev subs send, rfl⟩,
    fun c s => ⟨diff_sizes_back_iff _ hCs hCsi c s, diff_sizes_out_iff _ hCs hCsi c s⟩,
    ⟨save_of now (resolve_name name subs) (.sized Cs), check_product_write now _ name prev subs send, rfl⟩⟩
  · have := (diff_colors_back_iff _ hC c).mp hm
    rw [hn] at this
    cases this.1
  · have := (diff_colors_out_iff _ hC c).mp hm
    rw [hn] at this
    cases this.1

theorem c1_witness :
    (("Red", (none : Option String)) ∈
      (diff_colors [("Red", false)] [("Red", true), ("Blue", false)]).1)
    ∧ (∃ st, (check_product "T1"
          (some (.colors [("Red", true), ("Blue", false)], some "Shell"))
          { color_stock := [("Red", false)], color_size_stock := [("Red", [("S", false)])],
            last_checked := none, has_sizes := none, product_name := none }
          [] (fun _ => true)).write = some st
        ∧ st.color_stock = [("Red", true), ("Blue", false)]) := by
  have h := c1_diff_transitions_and_snapshot
    { color_stock := [("Red", false)], color_size_stock := [("Red", [("S", false)])],
      last_checked := none, has_sizes := none, product_name := none }
    [("Red", true), ("Blue", false)] [("Red", [("S", true)])] "T1" (some "Shell")
    [] (fun _ => true) (by decide) (by decide) (by decide)
  exact ⟨(h.1 "Red").1.mpr (by decide), h.2.2.1⟩

/-- C2. Idempotence: diffing a snapshot against itself (either axis shape)
yields two empty transition lists; consequently a repeated scan that observes
unchanged stock dispatches nothing, writes no subscriber update, and only
refreshes the snapshot timestamp while persisting the same map. -/
theorem c2_diff_idempotent
    (prev : ProductState) (now : String) (name : Option String)
    (subs : List Subscriber) (send : Subscriber → Bool)
    (hS : (prev.color_stock.map Prod.fst).Nodup)
    (hM : (prev.color_size_stock.map Prod.fst).Nodup)
    (hMi : ∀ p ∈ prev.color_size_stock, (p.2.map Prod.fst).Nodup) :
    diff_colors prev.color_stock prev.color_stock = ([], [])
    ∧ diff_sizes prev.color_size_stock prev.color_size_stock = ([], [])
    ∧ (check_product now (some (.colors prev.color_stock, name)) prev subs send =
        { write := some (save_of now (resolve_name name subs) (.colors prev.color_stock)),
          sent := [], subs_write := none })
    ∧ (save_of now (resolve_name name subs) (.colors prev.color_stock)).color_stock
        = prev.color_stock
    ∧ (save_of now (resolve_name name subs) (.colors prev.color_stock)).last_checked
        = some now
    ∧ (check_product now (some (.sized prev.color_size_stock, name)) prev subs send =
        { write := some (save_of now (resolve_name name subs) (.sized prev.color_size_stock)),
          sent := [], subs_write := none })
    ∧ (save_of now (resolve_name name subs) (.sized prev.color_size_stock)).color_size_stock
        = prev.color_size_stock
    ∧ (save_of now (resolve_name name subs) (.sized prev.color_size_stock)).last_checked
        = some now := by
  have h1 : diff_colors prev.color_stock prev.color_stock = ([], []) := diff_colors_self hS
  have h2 : diff_sizes prev.color_size_stock prev.color_size_stock = ([], []) :=
    diff_sizes_self hM hMi
  refine ⟨h1, h2, ?_, rfl, rfl, ?_, rfl, rfl⟩
  · rw [check_product_some]
    have : scan_diff prev (.colors prev.color_stock) = ([], []) := h1
    rw [this]
    rfl
  · rw [check_product_some]
    have : scan_diff prev (.sized prev.color_size_stock) = ([], []) := h2
    rw [this]
    rfl

theorem c2_witness :
    diff_colors [("Red", true), ("Blue", false)] [("Red", true), ("Blue", false)] = ([], [])
    ∧ (check_product "T1" (some (.colors [("Red", true), ("Blue", false)], some "Shell"))
        { color_stock := [("Red", true), ("Blue", false)],
          color_size_stock := [("Red", [("S", false), ("M", true)])],
          last_checked := some "T0", has_sizes := some false, product_name := some "Shell" }
        [] (fun _ => true)).sent = [] := by
  have h := c2_diff_idempotent
    { color_stock := [("Red", true), ("Blue", false)],
      color_size_stock := [("Red", [("S", false), ("M", true)])],
      last_checked := some "T0", has_sizes := some false, product_name := some "Shell" }
    "T1" (some "Shell") [] (fun _ => true) (by decide) (by decide) (by decide)
  exact ⟨h.1, by rw [h.2.2.1]⟩

/-- C3 counterexample. The claim says the static tier never returns
conclusive `true`; but for a size button without the `no--stock` marker that
is not disabled, `check_size_stock_by_class` returns conclusive `true`
(scraper.py lines 172-173). -/
theorem c3_counterexample :
    check_size_stock_by_class
      (some { class_attr := some "qa--size-button", disabled := false }) = some true := by
  decide

/-- C3 amended. For color variants the static tier indeed returns conclusive
`false` exactly when the element or a matched child carries the `no--stock`
marker and never returns conclusive `true`; for size variants it returns
conclusive `false` on the marker, conclusive `true` when the marker is absent
and the button is enabled, and is inconclusive only when the marker is absent
and the button disabled. In both flows a conclusive static result is the
final value for that variant and the interactive-probe tier is not consulted. -/
theorem c3_static_tier_amended :
    (∀ el, check_color_stock_by_class el ≠ some true)
    ∧ (∀ e : ColorElem, check_color_stock_by_class (some e) = some false ↔
        (str_contains (e.class_attr.getD "") "no--stock"
          || e.child_classes.any (fun c => str_contains (c.getD "") "no--stock")) = true)
    ∧ check_color_stock_by_class none = none
    ∧ (∀ b : SizeButton, check_size_stock_by_class (some b) =
        (if str_contains (b.class_attr.getD "") "no--stock" then some false
         else if !b.disabled then some true
         else none))
    ∧ check_size_stock_by_class none = none
    ∧ (∀ (pg : ColorsFlowPage) (colors : List String) (c : String) (b : Bool),
        colors.Nodup → c ∈ colors →
        check_color_stock_by_class (pg.color_elem c) = some b →
        (check_stock_colors_only pg colors).lookup c = some b)
    ∧ (∀ (pg : SizedFlowPage) (c s : String) (b : Bool),
        check_size_stock_by_class (pg.size_button c s) = some b →
        probe_size pg c s = b) := by
  refine ⟨fun el => ?_, fun e => ?_, rfl, fun b => rfl, rfl,
    fun pg colors c b hnd hc hs => ?_, fun pg c s b hs => ?_⟩
  · rcases el with _ | e
    · simp [check_color_stock_by_class]
    · unfold check_color_stock_by_class
      split
      · simp
      · split
        · simp
        · simp
  · unfold check_color_stock_by_class
    constructor
    · intro h
      by_cases h1 : str_contains (e.class_attr.getD "") "no--stock"
      · simp [h1]
      · by_cases h2 : e.child_classes.any (fun c => str_contains (c.getD "") "no--stock")
        · simp [h2]
        · simp only [h1, Bool.false_eq_true, if_neg, not_false_eq_true, h2] at h
          cases h
    · intro h
      rcases (Bool.or_eq_true _ _) ▸ h with h1 | h2
      · simp [h1]
      · by_cases h1 : str_contains (e.class_attr.getD "") "no--stock"
        · simp [h1]
        · simp [h1, h2]
  · rw [check_stock_colors_only_lookup pg hnd hc]
    unfold color_status
    rw [hs]
  · unfold probe_size
    rw [hs]

theorem c3_witness :
    check_color_stock_by_class (some ⟨some "item no--stock", []⟩) ≠ some true
    ∧ probe_size
        ⟨fun _ => true, fun _ => ⟨false, [], []⟩, fun _ => [],
         fun _ _ => some ⟨some "x no--stock", false⟩, fun _ _ => false, fun _ _ => []⟩
        "Red" "M" = false :=
  ⟨c3_static_tier_amended.1 _,
   c3_static_tier_amended.2.2.2.2.2.2 _ "Red" "M" false (by decide)⟩

theorem diff_sizes_color_back_nodup (pm : List (String × Bool)) (c : String)
    {sm : List (String × Bool)} (hsm : (sm.map Prod.fst).Nodup) :
    (diff_sizes_color pm c sm).1.Nodup := by
  induction sm with
  | nil => simp [diff_sizes_color]
  | cons p rest ih =>
    obtain ⟨s0, b0⟩ := p
    simp only [List.map_cons, List.nodup_cons] at hsm
    obtain ⟨hnotin, hrest⟩ := hsm
    have hnd := ih hrest
    have hni : (c, some s0) ∉ (diff_sizes_color pm c rest).1 := by
      intro hm
      obtain ⟨s', hx, hs'⟩ := shape_diff_sizes_color_back hm
      injection hx with h1 h2
      injection h2 with h2
      exact hnotin (h2.symm ▸ hs')
    rcases hp : pm.lookup s0 with _ | was
    · simp only [diff_sizes_color, hp]
      exact hnd
    · rcases was <;> rcases b0 <;> simp_all [diff_sizes_color, hp]

theorem diff_sizes_back_nodup (P : List (String × List (String × Bool)))
    {C : List (String × List (String × Bool))} (hC : (C.map Prod.fst).Nodup)
    (hCi : ∀ p ∈ C, (p.2.map Prod.fst).Nodup) :
    (diff_sizes P C).1.Nodup := by
  induction C with
  | nil => simp [diff_sizes]
  | cons p rest ih =>
    obtain ⟨c0, sm0⟩ := p
    simp only [List.map_cons, List.nodup_cons] at hC
    obtain ⟨hnotin, hrest⟩ := hC
    have hin : (sm0.map Prod.fst).Nodup := hCi (c0, sm0) (List.mem_cons_self _ _)
    have hit : ∀ p ∈ rest, (p.2.map Prod.fst).Nodup := fun p hp =>
      hCi p (List.mem_cons_of_mem _ hp)
    have h1 : (diff_sizes_color ((P.lookup c0).getD []) c0 sm0).1.Nodup :=
      diff_sizes_color_back_nodup _ _ hin
    have h2 : (diff_sizes P rest).1.Nodup := ih hrest hit
    have hdisj : (diff_sizes_color ((P.lookup c0).getD []) c0 sm0).1.Disjoint
        (diff_sizes P rest).1 := by
      intro x hx1 hx2
      obtain ⟨s', hx, -⟩ := shape_diff_sizes_color_back hx1
      subst hx
      exact hnotin (mem_fst_diff_sizes_back hx2)
    simp only [diff_sizes]
    exact h1.append h2 hdisj

/-- Appending the history rows of one dispatch phase counts each distinct
BECAME_IN_STOCK transition's row exactly once, for any subscriber list and
any send outcomes. -/
theorem dispatch_history_count_one (url pname now : String)
    (subs : List Subscriber) (send : Subscriber → Bool)
    {back : List Transition} (out : List Transition)
    (hnd : back.Nodup) {t : Transition} (ht : t ∈ back) :
    (dispatch_cycle url pname now subs send back out).2.count
      { product_url := url, product_name := pname, color := t.1, size := t.2,
        came_back_in_stock_at := now } = 1 := by
  have hinj : Function.Injective (fun t : Transition =>
      ({ product_url := url, product_name := pname, color := t.1, size := t.2,
         came_back_in_stock_at := now } : HistRecord)) := by
    intro a b hab
    obtain ⟨a1, a2⟩ := a
    obtain ⟨b1, b2⟩ := b
    simpa [HistRecord.mk.injEq, Prod.ext_iff] using hab
  have hcm := List.count_map_of_injective back _ hinj t
  have hc1 := List.count_eq_one_of_mem hnd ht
  exact hcm.trans hc1

/-- C4. Spec-modelled: each BECAME_IN_STOCK transition of a scan cycle — for
both axis shapes, whether the cycle's transitions come from the colors diff or
from the sized diff — is appended to the history sink exactly once per cycle,
independent of the subscriber list, while every subscriber still receives one
message. -/
theorem c4_history_once_per_cycle
    (url pname now : String) (send : Subscriber → Bool)
    (P C : List (String × Bool)) (hC : (C.map Prod.fst).Nodup)
    (Ps Cs : List (String × List (String × Bool)))
    (hCs : (Cs.map Prod.fst).Nodup)
    (hCsi : ∀ p ∈ Cs, (p.2.map Prod.fst).Nodup) :
    ∀ subs : List Subscriber,
      (∀ t ∈ (diff_colors P C).1,
        (dispatch_cycle url pname now subs send
            (diff_colors P C).1 (diff_colors P C).2).2.count
          { product_url := url, product_name := pname, color := t.1, size := t.2,
            came_back_in_stock_at := now } = 1)
      ∧ (∀ t ∈ (diff_sizes Ps Cs).1,
        (dispatch_cycle url pname now subs send
            (diff_sizes Ps Cs).1 (diff_sizes Ps Cs).2).2.count
          { product_url := url, product_name := pname, color := t.1, size := t.2,
            came_back_in_stock_at := now } = 1)
      ∧ (dispatch_cycle url pname now subs send
          (diff_colors P C).1 (diff_colors P C).2).1.length = subs.length
      ∧ (dispatch_cycle url pname now subs send
          (diff_sizes Ps Cs).1 (diff_sizes Ps Cs).2).1.length = subs.length := by
  intro subs
  refine ⟨fun t ht => dispatch_history_count_one url pname now subs send _
      (diff_colors_back_nodup P hC) ht,
    fun t ht => dispatch_history_count_one url pname now subs send _
      (diff_sizes_back_nodup Ps hCs hCsi) ht,
    by simp [dispatch_cycle], by simp [dispatch_cycle]⟩

theorem c4_witness :
    ((dispatch_cycle "u" "Shell" "T1"
        [{ email := "one@example.com", product_name := none, last_notified := none },
         { email := "two@example.com", product_name := none, last_notified := none }]
        (fun _ => false)
        (diff_colors [("Red", false)] [("Red", true)]).1
        (diff_colors [("Red", false)] [("Red", true)]).2).2.count
      { product_url := "u", product_name := "Shell", color := "Red", size := none,
        came_back_in_stock_at := "T1" } = 1)
    ∧ ((dispatch_cycle "u" "Shell" "T1"
        [{ email := "one@example.com", product_name := none, last_notified := none },
         { email := "two@example.com", product_name := none, last_notified := none }]
        (fun _ => false)
        (diff_sizes [("Red", [("S", false)])] [("Red", [("S", true)])]).1
        (diff_sizes [("Red", [("S", false)])] [("Red", [("S", true)])]).2).2.count
      { product_url := "u", product_name := "Shell", color := "Red", size := some "S",
        came_back_in_stock_at := "T1" } = 1)
    ∧ ((dispatch_cycle "u" "Shell" "T1"
        [{ email := "one@example.com", product_name := none, last_notified := none },
         { email := "two@example.com", product_name := none, last_notified := none }]
        (fun _ => false)
        (diff_colors [("Red", false)] [("Red", true)]).1
        (diff_colors [("Red", false)] [("Red", true)]).2).1.length = 2)
    ∧ ((dispatch_cycle "u" "Shell" "T1"
        [{ email := "one@example.com", product_name := none, last_notified := none },
         { email := "two@example.com", product_name := none, last_notified := none }]
        (fun _ => false)
        (diff_sizes [("Red", [("S", false)])] [("Red", [("S", true)])]).1
        (diff_sizes [("Red", [("S", false)])] [("Red", [("S", true)])]).2).1.length = 2) := by
  have h := c4_history_once_per_cycle "u" "Shell" "T1" (fun _ => false)
    [("Red", false)] [("Red", true)] (by decide)
    [("Red", [("S", false)])] [("Red", [("S", true)])] (by decide) (by decide)
    [{ email := "one@example.com", product_name := none, last_notified := none },
     { email := "two@example.com", product_name := none, last_notified := none }]
  exact ⟨h.1 ("Red", none) (by decide), h.2.1 ("Red", some "S") (by decide),
    h.2.2.1, h.2.2.2⟩

/-- C5. Dispatch isolation: when some transition exists, every subscriber in
the filtered list is sent exactly one message carrying both full transition
lists; the per-subscriber send outcome (the boolean returned by
`send_stock_notification`, which catches every exception internally) affects
neither the attempts to the remaining subscribers nor the snapshot write. -/
theorem c5_dispatch_isolation
    (now : String) (data : StockData) (name : Option String) (prev : ProductState)
    (subs : List Subscriber) (send send2 : Subscriber → Bool)
    (h : ¬((scan_diff prev data).1 = [] ∧ (scan_diff prev data).2 = [])) :
    (check_product now (some (data, name)) prev subs send).sent =
      subs.map (fun sub =>
        (sub.email, (scan_diff prev data).1, (scan_diff prev data).2, send sub))
    ∧ (check_product now (some (data, name)) prev subs send).write =
        (check_product now (some (data, name)) prev subs send2).write
    ∧ ((check_product now (some (data, name)) prev subs send).write).isSome = true := by
  have hne : ((scan_diff prev data).1.isEmpty && (scan_diff prev data).2.isEmpty) = false := by
    rcases h1 : (scan_diff prev data).1 with _ | _
    · rcases h2 : (scan_diff prev data).2 with _ | _
      · exact absurd ⟨h1, h2⟩ h
      · simp [h2]
    · simp [h1]
  refine ⟨?_, ?_, ?_⟩
  · rw [check_product_some, hne]
    rfl
  · rw [check_product_write, check_product_write]
  · rw [check_product_write]
    rfl

theorem c5_witness :
    (check_product "T1" (some (.colors [("Red", true)], some "Shell"))
      { color_stock := [("Red", false)], color_size_stock := [], last_checked := none,
        has_sizes := none, product_name := none }
      [{ email := "one@example.com", product_name := none, last_notified := none },
       { email := "two@example.com", product_name := none, last_notified := none }]
      (fun sub => sub.email != "one@example.com")).sent =
    [("one@example.com", [("Red", none)], [], false),
     ("two@example.com", [("Red", none)], [], true)] := by
  have h := c5_dispatch_isolation "T1" (.colors [("Red", true)]) (some "Shell")
    { color_stock := [("Red", false)], color_size_stock := [], last_checked := none,
      has_sizes := none, product_name := none }
    [{ email := "one@example.com", product_name := none, last_notified := none },
     { email := "two@example.com", product_name := none, last_notified := none }]
    (fun sub => sub.email != "one@example.com") (fun _ => true) (by decide)
  rw [h.1]
  decide

/-- C6 counterexample. The claim says a variant whose control is unreachable
resolves to `false` in the current snapshot; but in the sized flow a color
whose click fails is skipped by `continue` (scraper.py lines 270-271): with
one color `Red` (sizes `S`) whose click fails, the produced snapshot is empty —
no variant of `Red` is present at all, let alone as `false`. -/
theorem c6_counterexample :
    check_stock_with_sizes
      ⟨fun _ => false, fun _ => ⟨true, [some "S"], []⟩, fun _ => [],
       fun _ _ => none, fun _ _ => false, fun _ _ => []⟩ ["Red"] ["S"] = []
    ∧ (check_stock_with_sizes
        ⟨fun _ => false, fun _ => ⟨true, [some "S"], []⟩, fun _ => [],
         fun _ _ => none, fun _ _ => false, fun _ _ => []⟩ ["Red"] ["S"]).lookup "Red"
        = none := by
  decide

/-- C6 amended. In the colors-only flow an unreachable color control (static
tier inconclusive, click failed) resolves that color to `false` and every
other discovered color still receives its own value; in the sized flow an
unreachable size control (static tier inconclusive, click failed) resolves
that (color, size) to `false`; but an unreachable color control in the sized
flow drops that color from the current snapshot entirely (its entry is
absent, not `false`), while the remaining colors are still scanned. -/
theorem c6_navigation_failure_amended :
    (∀ (pg : ColorsFlowPage) (colors : List String) (c : String),
        colors.Nodup → c ∈ colors →
        (check_stock_colors_only pg colors).lookup c = some (color_status pg c))
    ∧ (∀ (pg : ColorsFlowPage) (c : String),
        check_color_stock_by_class (pg.color_elem c) = none →
        pg.click_color_ok c = false → color_status pg c = false)
    ∧ (∀ (pg : SizedFlowPage) (c s : String),
        check_size_stock_by_class (pg.size_button c s) = none →
        pg.click_size_ok c s = false → probe_size pg c s = false)
    ∧ (∀ (pg : SizedFlowPage) (colors sizes : List String) (c : String),
        colors.Nodup → c ∈ colors →
        (check_stock_with_sizes pg colors sizes).lookup c =
          (if pg.click_color_ok c then some (sized_inner pg c) else none)) := by
  refine ⟨fun pg colors c hnd hc => check_stock_colors_only_lookup pg hnd hc,
    fun pg c hs hck => ?_, fun pg c s hs hck => ?_,
    fun pg colors sizes c hnd hc => check_stock_with_sizes_lookup pg hnd hc sizes⟩
  · unfold color_status
    rw [hs, hck]
    rfl
  · unfold probe_size
    rw [hs, hck]
    rfl

theorem c6_witness :
    (check_stock_colors_only ⟨fun _ => none, fun _ => false, fun _ => []⟩
        ["Red"]).lookup "Red" =
      some (color_status ⟨fun _ => none, fun _ => false, fun _ => []⟩ "Red")
    ∧ color_status ⟨fun _ => none, fun _ => false, fun _ => []⟩ "Red" = false
    ∧ probe_size ⟨fun _ => true, fun _ => ⟨false, [], []⟩, fun _ => [],
        fun _ _ => none, fun _ _ => false, fun _ _ => []⟩ "Red" "S" = false
    ∧ (check_stock_with_sizes
        ⟨fun _ => false, fun _ => ⟨true, [some "S"], []⟩, fun _ => [],
         fun _ _ => none, fun _ _ => false, fun _ _ => []⟩ ["Blue"] ["S"]).lookup "Blue"
        = none := by
  refine ⟨c6_navigation_failure_amended.1 _ ["Red"] "Red" (by decide) (by decide),
    c6_navigation_failure_amended.2.1 _ "Red" (by decide) (by decide),
    c6_navigation_failure_amended.2.2.1 _ "Red" "S" (by decide) (by decide),
    (c6_navigation_failure_amended.2.2.2 _ ["Blue"] ["S"] "Blue"
      (by decide) (by decide)).trans (by decide)⟩

/-- C7. Frame property on failed discovery: empty color discovery makes
`check_stock_status` return the error triple (`none`), whereupon the scheduler
`continue`s before any write — the per-product cycle performs no snapshot
write, no dispatch, no subscriber write, and the stored snapshot for the
product is byte-for-byte unchanged. -/
theorem c7_empty_discovery_frame
    (pg : ProductPage) (h : get_all_colors pg.colors_page = [])
    (now url : String) (prev : ProductState) (subs : List Subscriber)
    (send : Subscriber → Bool) (store : List (String × ProductState)) :
    check_stock_status pg = none
    ∧ check_product now (check_stock_status pg) prev subs send =
        { write := none, sent := [], subs_write := none }
    ∧ apply_write store url
        (check_product now (check_stock_status pg) prev subs send).write = store := by
  have h0 : check_stock_status pg = none := by
    unfold check_stock_status
    rw [h]
    rfl
  refine ⟨h0, ?_, ?_⟩
  · rw [h0]
    rfl
  · rw [h0]
    rfl

theorem c7_witness :
    check_stock_status
      ⟨⟨none⟩, ⟨false, [], []⟩, ⟨fun _ => none, fun _ => false, fun _ => []⟩,
       ⟨fun _ => false, fun _ => ⟨false, [], []⟩, fun _ => [],
        fun _ _ => none, fun _ _ => false, fun _ _ => []⟩, none⟩ = none
    ∧ apply_write [("u", (⟨[("Red", true)], [], some "T0", some false, none⟩ : ProductState))] "u"
        (check_product "T1"
          (check_stock_status
            ⟨⟨none⟩, ⟨false, [], []⟩, ⟨fun _ => none, fun _ => false, fun _ => []⟩,
             ⟨fun _ => false, fun _ => ⟨false, [], []⟩, fun _ => [],
              fun _ _ => none, fun _ _ => false, fun _ _ => []⟩, none⟩)
          ⟨[("Red", true)], [], some "T0", some false, none⟩
          [] (fun _ => true)).write =
      [("u", (⟨[("Red", true)], [], some "T0", some false, none⟩ : ProductState))] := by
  refine ⟨?_, ?_⟩
  · exact (c7_empty_discovery_frame _ (by decide) "T1" "u"
      ⟨[("Red", true)], [], some "T0", some false, none⟩
      [] (fun _ => true) []).1
  · exact (c7_empty_discovery_frame _ (by decide) "T1" "u"
      ⟨[("Red", true)], [], some "T0", some false, none⟩
      [] (fun _ => true)
      [("u", (⟨[("Red", true)], [], some "T0", some false, none⟩ : ProductState))]).2.2

/-- C8 counterexample. The claim says `last_notified` is updated only when the
send succeeded; but the dispatch loop (scheduler.py lines 224-234) ignores the
return value of `send_stock_notification`: with one subscriber whose send
fails (returns `False`), the subscriber file is still written with
`last_notified` stamped to the cycle timestamp. -/
theorem c8_counterexample :
    (check_product "T1" (some (.colors [("Red", true)], some "Shell"))
        ⟨[("Red", false)], [], some "T0", some false, some "Shell"⟩
        [⟨"one@example.com", some "Shell", none⟩] (fun _ => false)).sent =
      [("one@example.com", [("Red", none)], [], false)]
    ∧ (check_product "T1" (some (.colors [("Red", true)], some "Shell"))
        ⟨[("Red", false)], [], some "T0", some false, some "Shell"⟩
        [⟨"one@example.com", some "Shell", none⟩] (fun _ => false)).subs_write =
      some [⟨"one@example.com", some "Shell", some "T1"⟩] := by
  decide

/-- C8 amended. Whenever any transition exists, the engine stamps
`last_notified` with the cycle timestamp for every subscriber after the
dispatch attempt, regardless of whether the send to that subscriber
succeeded. -/
theorem c8_last_notified_amended
    (now : String) (data : StockData) (name : Option String) (prev : ProductState)
    (subs : List Subscriber) (send : Subscriber → Bool)
    (h : ¬((scan_diff prev data).1 = [] ∧ (scan_diff prev data).2 = [])) :
    (check_product now (some (data, name)) prev subs send).subs_write =
      some (subs.map (fun sub => { sub with last_notified := some now })) := by
  have hne : ((scan_diff prev data).1.isEmpty && (scan_diff prev data).2.isEmpty) = false := by
    rcases h1 : (scan_diff prev data).1 with _ | _
    · rcases h2 : (scan_diff prev data).2 with _ | _
      · exact absurd ⟨h1, h2⟩ h
      · simp [h2]
    · simp [h1]
  rw [check_product_some, hne]
  rfl

theorem c8_witness :
    (check_product "T1" (some (.colors [("Red", true)], some "Shell"))
        ⟨[("Red", false)], [], some "T0", some false, some "Shell"⟩
        [⟨"one@example.com", some "Shell", none⟩] (fun _ => false)).subs_write =
      some [⟨"one@example.com", some "Shell", some "T1"⟩] :=
  (c8_last_notified_amended "T1" (.colors [("Red", true)]) (some "Shell")
    ⟨[("Red", false)], [], some "T0", some false, some "Shell"⟩
    [⟨"one@example.com", some "Shell", none⟩] (fun _ => false) (by decide)).trans rfl

/-- C9. Size discovery postcondition: every returned token is valid under the
size grammar (base token of the fixed vocabulary, optional `-R`/`-T`/`-S` fit
marker; non-conforming tokens are excluded), the tokens are exact-string
distinct, and the list is sorted first by base rank (`get_size_sort_key s /
1000`, the position in the vocabulary) and then by fit-variation rank
(`get_size_sort_key s % 1000`: bare and `R` = 0, `T` = 100, `S` = 200). -/
theorem c9_size_grammar_postcondition (pg : SizePage) :
    (∀ s ∈ get_all_sizes pg, is_valid_size s = true)
    ∧ (get_all_sizes pg).Nodup
    ∧ (get_all_sizes pg).Pairwise (fun a b =>
        get_size_sort_key a / 1000 < get_size_sort_key b / 1000 ∨
          (get_size_sort_key a / 1000 = get_size_sort_key b / 1000 ∧
            get_size_sort_key a % 1000 ≤ get_size_sort_key b % 1000)) :=
  ⟨get_all_sizes_valid pg, get_all_sizes_nodup pg,
   (get_all_sizes_sorted pg).imp (fun hab => by
      unfold size_key_le at hab
      omega)⟩

theorem c9_witness :
    is_valid_size "M-T" = true
    ∧ (get_all_sizes ⟨true, [some "L", some "S", some "M-T"], []⟩).Nodup :=
  ⟨(c9_size_grammar_postcondition ⟨true, [some "L", some "S", some "M-T"], []⟩).1
      "M-T" (by decide),
   (c9_size_grammar_postcondition ⟨true, [some "L", some "S", some "M-T"], []⟩).2.1⟩

/-- C10. For a sized product, when the color click succeeds but size
re-discovery scoped to that color comes back empty, the color's snapshot
entry is the single pseudo-size `ALL` mapped to the interactive
call-to-action result defaulted to `false` when inconclusive — and `ALL` is
not a token of the size grammar. -/
theorem c10_all_pseudo_size (pg : SizedFlowPage) (colors sizes : List String)
    (c : String) (hnd : colors.Nodup) (hc : c ∈ colors)
    (hclick : pg.click_color_ok c = true)
    (hempty : get_all_sizes (pg.sizes_after_color c) = []) :
    (check_stock_with_sizes pg colors sizes).lookup c =
      some [("ALL", (check_button_for_stock (pg.buttons_after_color c)).getD false)]
    ∧ (check_button_for_stock (pg.buttons_after_color c) = none →
        (check_stock_with_sizes pg colors sizes).lookup c = some [("ALL", false)])
    ∧ is_valid_size "ALL" = false := by
  have h1 : (check_stock_with_sizes pg colors sizes).lookup c =
      if pg.click_color_ok c then some (sized_inner pg c) else none :=
    check_stock_with_sizes_lookup pg hnd hc sizes
  rw [hclick] at h1
  simp only [if_true] at h1
  have h2 : sized_inner pg c =
      [("ALL", (check_button_for_stock (pg.buttons_after_color c)).getD false)] := by
    unfold sized_inner
    rw [hempty]
    rfl
  refine ⟨by rw [h1, h2], fun hb => ?_, by decide⟩
  rw [h1, h2, hb]
  rfl

theorem c10_witness :
    (check_stock_with_sizes
      ⟨fun _ => true, fun _ => ⟨false, [], []⟩, fun _ => [],
       fun _ _ => none, fun _ _ => false, fun _ _ => []⟩ ["Red"] ["S"]).lookup "Red" =
      some [("ALL", false)]
    ∧ is_valid_size "ALL" = false :=
  ⟨(c10_all_pseudo_size
      ⟨fun _ => true, fun _ => ⟨false, [], []⟩, fun _ => [],
       fun _ _ => none, fun _ _ => false, fun _ _ => []⟩ ["Red"] ["S"] "Red"
      (by decide) (by decide) (by decide) (by decide)).2.1 (by decide),
   (c10_all_pseudo_size
      ⟨fun _ => true, fun _ => ⟨false, [], []⟩, fun _ => [],
       fun _ _ => none, fun _ _ => false, fun _ _ => []⟩ ["Red"] ["S"] "Red"
      (by decide) (by decide) (by decide) (by decide)).2.2⟩
